import Mathlib

/-!
Verification development for the MRP spreadsheet engine
(`src/pages/mrp/MrpDataPage.tsx`).

The engine is shallowly embedded: spreadsheet cells become an inductive
`Cell` (numeric cells carry exact rationals, text cells carry strings),
JS `Map`/object dictionaries become insertion-ordered association lists
(`alGet`/`alSet`), JS numbers become `ℚ`, and JS `Date` values become
proleptic-Gregorian day ordinals (`ℤ`).  Every definition mirrors one
function of the source file; the provenance is recorded in each doc
comment.
-/

set_option maxRecDepth 4000

/-- A spreadsheet cell as delivered by the workbook parser: either a
numeric cell (JS `number`, modelled exactly as `ℚ`) or a text cell. -/
inductive Cell where
  | num (q : ℚ)
  | str (s : String)
deriving DecidableEq, Repr

/-- JS `String(v)` for a cell value.  Text cells are returned verbatim.
For numeric cells the integral case matches JS rendering exactly; the
non-integral rendering is an approximation (no claim evaluates the
string form of a non-integral numeric cell). -/
def cellStr : Cell → String
  | Cell.str s => s
  | Cell.num q => if q.den = 1 then toString q.num else toString q.num ++ "." ++ toString q.den

/-- JS `String(v ?? '')` for a possibly-absent cell (`undefined` becomes
the empty string). -/
def cellStrOpt (o : Option Cell) : String := (o.map cellStr).getD ""

/-- Digits-to-value helper for the decimal parser. -/
def natOfDigits (cs : List Char) : ℕ :=
  cs.foldl (fun a c => a * 10 + (c.toNat - 48)) 0

/-- JS `s.trim()`: strip leading and trailing whitespace. -/
def jsTrim (s : String) : String :=
  String.mk (((s.data.dropWhile Char.isWhitespace).reverse.dropWhile Char.isWhitespace).reverse)

/-- JS `s.toLowerCase()` on the ASCII data handled here. -/
def lowerString (s : String) : String := String.mk (s.data.map Char.toLower)

/-- Split accumulator for `splitOnChar`. -/
def splitOnCharAux (sep : Char) : List Char → List Char → List (List Char)
  | cur, [] => [cur.reverse]
  | cur, a :: rest =>
      if a == sep then cur.reverse :: splitOnCharAux sep [] rest
      else splitOnCharAux sep (a :: cur) rest

/-- JS `s.split(sep)` for a one-character separator. -/
def splitOnChar (sep : Char) (s : String) : List String :=
  (splitOnCharAux sep [] s.data).map String.mk

/-!
The rational operations of Batteries are `@[irreducible]`, so embedding
arithmetic is routed through kernel-reducible wrappers built on
`mkRat`; the bridge lemmas `qAdd_eq`, `qSub_eq`, `qMul_eq`, `qDiv_eq`
identify them with the ordinary field operations.
-/

/-- Reducible rational addition. -/
def qAdd (a b : ℚ) : ℚ := mkRat (a.num * (b.den : ℤ) + b.num * (a.den : ℤ)) (a.den * b.den)

/-- Reducible rational subtraction. -/
def qSub (a b : ℚ) : ℚ := qAdd a (-b)

/-- Reducible rational multiplication. -/
def qMul (a b : ℚ) : ℚ := mkRat (a.num * b.num) (a.den * b.den)

/-- Reducible rational inverse (`0⁻¹ = 0`, as in `ℚ`). -/
def qInv (b : ℚ) : ℚ :=
  if b.num < 0 then mkRat (-(b.den : ℤ)) b.num.natAbs else mkRat (b.den : ℤ) b.num.natAbs

/-- Reducible rational division (zero divisor yields zero, as in `ℚ`). -/
def qDiv (a b : ℚ) : ℚ := qMul a (qInv b)

/-- Body of the JS `Number(string)` conversion on an already-trimmed,
non-empty character list: an optional sign followed by a decimal
literal (`123`, `123.`, `.5`, `12.75`).  Returns `none` for NaN.
Exponent/hex/`Infinity` literal forms do not occur in the data handled
by the claims and are treated as NaN. -/
def jsNumCore (cs : List Char) : Option ℚ :=
  let sgn : ℤ := match cs with
    | '-' :: _ => -1
    | _ => 1
  let body : List Char := match cs with
    | '-' :: t => t
    | '+' :: t => t
    | _ => cs
  let ip := body.takeWhile Char.isDigit
  let rest := body.drop ip.length
  match rest with
  | [] => if ip.isEmpty then none else some (mkRat (sgn * (natOfDigits ip : ℤ)) 1)
  | '.' :: fp =>
      if fp.all Char.isDigit ∧ (ip.isEmpty = false ∨ fp.isEmpty = false) then
        some (mkRat (sgn * (natOfDigits (ip ++ fp) : ℤ)) ((10 : ℕ) ^ fp.length))
      else none
  | _ => none

/-- JS `Number(s)` on a string: internal whitespace trimming, empty
string converts to `0`; `none` models NaN. -/
def jsNumber (s : String) : Option ℚ :=
  let t := jsTrim s
  if t = "" then some 0 else jsNumCore t.data

/-- `toNumber` (MrpDataPage.tsx lines 141-144): native numbers pass
through, everything else is stringified, trimmed and `Number`-parsed;
any non-finite result becomes `0`.  An absent cell (`undefined`)
stringifies to `''` which parses to `0`. -/
def toNumber (o : Option Cell) : ℚ :=
  match o with
  | some (Cell.num q) => q
  | some (Cell.str s) => (jsNumber s).getD 0
  | none => 0

/-- Collapse every maximal run of whitespace to a single space
(JS `replaceAll(/\s+/g, ' ')`). -/
def collapseWs : List Char → List Char
  | [] => []
  | [c] => [if c.isWhitespace then ' ' else c]
  | a :: b :: rest =>
      if a.isWhitespace && b.isWhitespace then collapseWs (b :: rest)
      else (if a.isWhitespace then ' ' else a) :: collapseWs (b :: rest)

/-- `normalizeHeaderValue` (lines 190-196) applied to a string:
trim, lowercase, collapse whitespace runs, underscores to spaces. -/
def normalizeHeaderString (s : String) : String :=
  let t := lowerString (jsTrim s)
  String.mk ((collapseWs t.data).map (fun c => if c = '_' then ' ' else c))

/-- `normalizeHeaderValue` (lines 190-196) on a possibly-absent cell. -/
def normalizeHeaderValue (o : Option Cell) : String :=
  normalizeHeaderString (cellStrOpt o)

/-- Does `hay` start with `needle`? -/
def charsStartWith : List Char → List Char → Bool
  | [], _ => true
  | _ :: _, [] => false
  | a :: as, b :: bs => a == b && charsStartWith as bs

/-- Substring occurrence test on character lists. -/
def charsContain (needle : List Char) : List Char → Bool
  | [] => needle.isEmpty
  | b :: bs => charsStartWith needle (b :: bs) || charsContain needle bs

/-- JS `s.includes(q)`. -/
def strIncludes (s q : String) : Bool := charsContain q.data s.data

/-- The strict period pattern `/^\d{2}\.\d{4}$/` used for production
plan week columns. -/
def isPeriodStr (s : String) : Bool :=
  match s.data with
  | [a, b, c, d, e, f, g] =>
      a.isDigit && b.isDigit && c == '.' && d.isDigit && e.isDigit && f.isDigit && g.isDigit
  | _ => false

/-- JS `Array.prototype.findIndex`: index of the first match, `-1` when
none. -/
def jsFindIndex {α : Type} (l : List α) (p : α → Bool) : ℤ :=
  match l.findIdx? p with
  | some i => (i : ℤ)
  | none => -1

/-- JS `row[i]` for a possibly out-of-range (or `-1` sentinel) index:
`undefined` is `none`. -/
def rowGet {α : Type} (row : List α) (i : ℤ) : Option α :=
  if i < 0 then none else row.get? i.toNat

/-- Lookup in an insertion-ordered association list (JS `Map.get` /
object property read). -/
def alGet {α : Type} : List (String × α) → String → Option α
  | [], _ => none
  | (k, v) :: rest, key => if k = key then some v else alGet rest key

/-- `Map.get(k) ?? d`. -/
def alGetD {α : Type} (l : List (String × α)) (key : String) (d : α) : α :=
  (alGet l key).getD d

/-- JS `Map.set` / object property write: replaces the value in place
when the key exists (keeping its insertion position), appends
otherwise. -/
def alSet {α : Type} : List (String × α) → String → α → List (String × α)
  | [], key, v => [(key, v)]
  | (k, w) :: rest, key, v =>
      if k = key then (k, v) :: rest else (k, w) :: alSet rest key v

/-! ### Netting and lot-sizing (lines 625-665) -/

/-- One material's policy record from the material master
(`buildMaterialMasterMap` value type, lines 407-435). -/
structure MmInfo where
  mpq : ℚ
  moq : ℚ
  reorder : ℚ
  instock : ℚ
  pendingPo : ℚ
deriving DecidableEq, Repr

/-- The lot-sizing cascade applied to a positive adjusted demand
(lines 650-660): reorder point wins, else MOQ when it exceeds the
demand, else round up to a multiple of MPQ, else the demand verbatim. -/
def lotSizedQty (mm : MmInfo) (adjustedDemand : ℚ) : ℚ :=
  if 0 < mm.reorder then qAdd mm.reorder adjustedDemand
  else if adjustedDemand < mm.moq then mm.moq
  else if 0 < mm.mpq then qMul (⌈qDiv adjustedDemand mm.mpq⌉ : ℚ) mm.mpq
  else adjustedDemand

/-- Net demand left after consuming from the running excess
(lines 640-648), for a period with positive gross demand. -/
def netAdjusted (remainingExcess qty : ℚ) : ℚ :=
  if 0 < remainingExcess then
    (if qty ≤ remainingExcess then 0 else qSub qty remainingExcess)
  else qty

/-- The running excess after one period of the walk (lines 637-648);
periods with `qty ≤ 0` leave the excess untouched. -/
def periodNextExcess (remainingExcess qty : ℚ) : ℚ :=
  if 0 < qty then
    (if 0 < remainingExcess then
      (if qty ≤ remainingExcess then qSub remainingExcess qty else 0)
     else remainingExcess)
  else remainingExcess

/-- The `requiredQty` recorded for one period of the walk
(lines 636-661). -/
def periodRequiredQty (mm : MmInfo) (remainingExcess qty : ℚ) : ℚ :=
  if 0 < qty then
    (let ad := netAdjusted remainingExcess qty
     if 0 < ad then lotSizedQty mm ad else 0)
  else 0

/-- The sequence of `remainingExcess` values observed after each period
of one material's sequential walk. -/
def excessTrace (re : ℚ) : List ℚ → List ℚ
  | [] => []
  | q :: rest => periodNextExcess re q :: excessTrace (periodNextExcess re q) rest

/-! ### Calendar model (JS `Date`, day granularity) -/

/-- Days-from-civil-date conversion for the proleptic Gregorian
calendar (day ordinal 0 is 0000-03-01), matching JS `Date` day
arithmetic.  `Int.tdiv` is used because the reference algorithm relies
on truncating division. -/
def daysFromCivil (y m d : ℤ) : ℤ :=
  let y2 := if m ≤ 2 then y - 1 else y
  let era := Int.tdiv (if 0 ≤ y2 then y2 else y2 - 399) 400
  let yoe := y2 - era * 400
  let mp := (m + 9) % 12
  let doy := Int.tdiv (153 * mp + 2) 5 + d - 1
  let doe := yoe * 365 + Int.tdiv yoe 4 - Int.tdiv yoe 100 + doy
  era * 146097 + doe

/-- Inverse of `daysFromCivil`: day ordinal to `(year, month, day)`
with months `1..12`. -/
def civilFromDays (z : ℤ) : ℤ × ℤ × ℤ :=
  let era := Int.tdiv (if 0 ≤ z then z else z - 146096) 146097
  let doe := z - era * 146097
  let yoe := Int.tdiv (doe - Int.tdiv doe 1460 + Int.tdiv doe 36524 - Int.tdiv doe 146096) 365
  let y := yoe + era * 400
  let doy := doe - (365 * yoe + Int.tdiv yoe 4 - Int.tdiv yoe 100)
  let mp := Int.tdiv (5 * doy + 2) 153
  let d := doy - Int.tdiv (153 * mp + 2) 5 + 1
  let m := if mp < 10 then mp + 3 else mp - 9
  (if m ≤ 2 then y + 1 else y, m, d)

/-- Day-of-month of a day ordinal (JS `getDate()`). -/
def dayOfMonth (ord : ℤ) : ℤ := (civilFromDays ord).2.2

/-- JS `ToInteger` on a finite number: truncation toward zero. -/
def ratTrunc (q : ℚ) : ℤ := if 0 ≤ q then ⌊q⌋ else ⌈q⌉

/-- JS `d.setDate(n)`: keeps the current month start and replaces the
day-of-month with `ToInteger(n)`, rolling over month boundaries. -/
def jsSetDate (ord : ℤ) (n : ℚ) : ℤ := ord - dayOfMonth ord + ratTrunc n

/-- The three-letter month names of `formatPoDate` (lines 155-161). -/
def monthAbbrevs : List String :=
  ["Jan", "Feb", "Mar", "Apr", "May", "Jun", "Jul", "Aug", "Sep", "Oct", "Nov", "Dec"]

/-- `String(n).padStart(2, '0')` for the day component. -/
def pad2 (n : ℤ) : String :=
  let s := toString n
  if s.length < 2 then "0" ++ s else s

/-- `formatPoDate` (lines 155-161): renders a day ordinal as
`DD-Mon-YY` (two-digit day, month abbreviation, last two digits of the
year, via `String(getFullYear()).slice(-2)`). -/
def formatPoDate (ord : ℤ) : String :=
  let c := civilFromDays ord
  let day := pad2 c.2.2
  let month := (monthAbbrevs.get? (c.2.1 - 1).toNat).getD ""
  let yearFull := toString c.1
  let yearShort := String.mk (yearFull.data.drop (yearFull.length - 2))
  day ++ "-" ++ month ++ "-" ++ yearShort

/-- A parsed workbook sheet (`ParsedExcel`, lines 6-9): the chosen
sheet name and its grid of raw cell values. -/
structure ParsedExcel where
  sheetName : String
  jsonData : List (List Cell)
deriving DecidableEq, Repr

/-- Day ordinal of the spreadsheet serial-date epoch 1899-12-30 used by
`calculatePoDate` (line 381). -/
def excelEpochOrd : ℤ := daysFromCivil 1899 12 30

/-- `new Date(string)` restricted to ISO `YYYY-MM-DD` calendar dates,
the only string form the claims exercise; anything else is treated as
an invalid date (`none`), which sends `calculatePoDate` to its
deterministic fallback exactly as a `NaN` date does in the source. -/
def jsDateParseIso (s : String) : Option ℤ :=
  match splitOnChar '-' s with
  | [ys, ms, ds] =>
      if ys.data.all Char.isDigit ∧ ms.data.all Char.isDigit ∧ ds.data.all Char.isDigit ∧
         ys.length = 4 ∧ ms.length = 2 ∧ ds.length = 2 then
        some (daysFromCivil (natOfDigits ys.data) (natOfDigits ms.data) (natOfDigits ds.data))
      else none
  | _ => none

/-- The week-plan lookup of `calculatePoDate` (lines 372-388): find the
row whose week-number cell is strictly equal to the period string, read
its start-date cell (spreadsheet serial number via the 1899-12-30
epoch, or a parseable date string); `none` when the document is
absent/empty or the lookup fails, triggering the fallback. -/
def weekPlanDate (weekPlan : Option ParsedExcel) (weekStr : String) : Option ℤ :=
  match weekPlan with
  | none => none
  | some wp =>
      if wp.jsonData.isEmpty then none
      else
        let headers := wp.jsonData.head?.getD []
        let rows := wp.jsonData.drop 1
        let weekNoIdx := jsFindIndex headers (fun h => strIncludes (lowerString (cellStr h)) "week")
        let startDateIdx := jsFindIndex headers (fun h => strIncludes (lowerString (cellStr h)) "start date")
        let weekRow := rows.find? (fun r =>
          match rowGet r weekNoIdx with
          | some (Cell.str s) => s = weekStr
          | _ => false)
        match weekRow.bind (fun r => rowGet r startDateIdx) with
        | some (Cell.num q) => some (excelEpochOrd + ⌊q⌋)
        | some (Cell.str s) => if s = "" then none else jsDateParseIso s
        | none => none

/-- `calculatePoDate` (lines 366-405): `"-"` for non-positive
quantities; otherwise required-by date from the week plan when
available, else January 1 of the period's year advanced by
`weekNumber × 7` days via `setDate`; then the lead time is subtracted
and the result formatted `DD-Mon-YY`.  A period string that does not
split into two parseable numbers would produce an unusable invalid-date
string in JS; it is modelled as the `"-"` placeholder (dead code: every
call site passes a `WW.YYYY` key, whose four-digit year also avoids the
JS two-digit-year remapping of `new Date`). -/
def calculatePoDate (weekStr : String) (leadTimeDays : ℚ) (mrpQty : ℚ) (weekPlan : Option ParsedExcel) : String :=
  if mrpQty ≤ 0 then "-"
  else
    let requiredOrd : Option ℤ :=
      match weekPlanDate weekPlan weekStr with
      | some o => some o
      | none =>
          let parts := splitOnChar '.' weekStr
          match (parts.get? 0).bind jsNumber, (parts.get? 1).bind jsNumber with
          | some wk, some yr =>
              let yearStart := daysFromCivil (ratTrunc yr) 1 1
              some (jsSetDate yearStart (qAdd (dayOfMonth yearStart : ℚ) (qMul wk 7)))
          | _, _ => none
    match requiredOrd with
    | some ro => formatPoDate (jsSetDate ro (qSub (dayOfMonth ro : ℚ) leadTimeDays))
    | none => "-"

/-! ### Sheet selection (lines 51-139) -/

/-- The five document types driving sheet scoring and column rules. -/
inductive DocType where
  | bom
  | materialMaster
  | idp
  | supplierDetails
  | weekPlan
deriving DecidableEq, Repr

/-- `has(q)` inside `scoreSheetByType` (line 57): some cell of the
scanned rows whose normalized text contains `q`. -/
def sheetHas (rows : List (List Cell)) (q : String) : Bool :=
  rows.any (fun r => r.any (fun c => strIncludes (normalizeHeaderString (cellStr c)) q))

/-- `hasRegex` specialized to the period pattern (lines 58, 109). -/
def sheetHasPeriod (rows : List (List Cell)) : Bool :=
  rows.any (fun r => r.any (fun c => isPeriodStr (jsTrim (cellStr c))))

/-- `scoreSheetByType` (lines 51-111): type-specific weighted keyword
hits against the sheet name and the first 15 rows. -/
def scoreSheetByType (type : DocType) (sheetName : String) (aoa : List (List Cell)) : ℤ :=
  let rows := aoa.take 15
  let sn := normalizeHeaderString sheetName
  match type with
  | DocType.bom =>
      (if strIncludes sn "bom" then 5 else 0) +
      (if sheetHas rows "derived" then 2 else 0) +
      (if sheetHas rows "child" then 3 else 0) +
      (if sheetHas rows "quantity" || sheetHas rows "per kit" then 1 else 0) +
      (if sheetHas rows "uom" then 1 else 0)
  | DocType.materialMaster =>
      (if strIncludes sn "material" then 3 else 0) +
      (if strIncludes sn "master" then 2 else 0) +
      (if sheetHas rows "mpq" then 2 else 0) +
      (if sheetHas rows "moq" then 2 else 0) +
      (if sheetHas rows "reorder" then 2 else 0) +
      (if sheetHas rows "instock" || sheetHas rows "in stock" then 1 else 0) +
      (if sheetHas rows "pending po" then 1 else 0)
  | DocType.supplierDetails =>
      (if strIncludes sn "supplier" then 4 else 0) +
      (if strIncludes sn "vendor" then 2 else 0) +
      (if sheetHas rows "vendor" then 2 else 0) +
      (if sheetHas rows "lead-time" || sheetHas rows "lead time" then 2 else 0) +
      (if sheetHas rows "transport" then 1 else 0)
  | DocType.weekPlan =>
      (if strIncludes sn "week" then 4 else 0) +
      (if strIncludes sn "plan" then 2 else 0) +
      (if sheetHas rows "week" then 2 else 0) +
      (if sheetHas rows "start date" then 2 else 0) +
      (if sheetHas rows "end date" then 1 else 0)
  | DocType.idp =>
      (if strIncludes sn "production" then 2 else 0) +
      (if strIncludes sn "plan" then 2 else 0) +
      (if strIncludes sn "idp" then 4 else 0) +
      (if sheetHas rows "derived" then 2 else 0) +
      (if sheetHasPeriod rows then 4 else 0)

/-- A raw workbook: sheet names in workbook order, each with its grid
when the worksheet object exists (`workbook.Sheets[sn]` can be
absent). -/
def Workbook : Type := List (String × Option (List (List Cell)))

/-- One fold step of `parseExcelArrayBuffer` (lines 120-136): skip
absent worksheets, keep the incumbent unless the new sheet scores
strictly higher. -/
def sheetFoldStep (type : DocType) (acc : String × ℤ × Option (List (List Cell)))
    (entry : String × Option (List (List Cell))) : String × ℤ × Option (List (List Cell)) :=
  match entry.2 with
  | none => acc
  | some aoa =>
      let score := scoreSheetByType type entry.1 aoa
      if acc.2.1 < score then (entry.1, score, some aoa) else acc

/-- `parseExcelArrayBuffer` (lines 113-139): score every sheet, keep
the strictly best one (first wins ties), default to the first sheet
name (`'Sheet1'` when the workbook has none) with an empty grid. -/
def parseExcelArrayBuffer (wb : Workbook) (type : DocType) : ParsedExcel :=
  let best := wb.foldl (sheetFoldStep type) ((wb.head?.map Prod.fst).getD "Sheet1", -1, none)
  ⟨best.1, (best.2.2).getD []⟩

/-! ### The per-material period walk (lines 616-683) -/

/-- The mutable state of one material's period walk (lines 621-627):
the three per-period output maps, the running selected-window demand
total and the running excess. -/
structure WalkAcc where
  weeklyDemand : List (String × ℚ)
  weeklyMrpQty : List (String × ℚ)
  weeklyPoDate : List (String × String)
  totalDemand : ℚ
  remainingExcess : ℚ
deriving DecidableEq, Repr

/-- `demandByWeek.forEach` (lines 629-665): sequential walk over one
material's demand periods in map insertion order, netting the running
excess, lot-sizing the remainder and scheduling the PO date. -/
def mrpWalk (mm : MmInfo) (selectedWeeks : List String) (leadTime : ℚ)
    (weekPlan : Option ParsedExcel) : WalkAcc → List (String × ℚ) → WalkAcc
  | acc, [] => acc
  | acc, (week, qty) :: rest =>
      let rq := periodRequiredQty mm acc.remainingExcess qty
      mrpWalk mm selectedWeeks leadTime weekPlan
        { weeklyDemand := alSet acc.weeklyDemand week qty
          weeklyMrpQty := alSet acc.weeklyMrpQty week rq
          weeklyPoDate := alSet acc.weeklyPoDate week (calculatePoDate week leadTime rq weekPlan)
          totalDemand := qAdd acc.totalDemand (if selectedWeeks.contains week then qty else 0)
          remainingExcess := periodNextExcess acc.remainingExcess qty } rest

/-! ### Schema resolution (lines 198-214, 561-570) -/

/-- `findHeaderRowIndex` (lines 198-205): first of the initial
`maxScan` rows satisfying every matcher, row 0 as the safe default. -/
def findHeaderRowIndex (rows : List (List Cell)) (matchers : List (List Cell → Bool)) (maxScan : ℕ) : ℕ :=
  ((rows.take (min maxScan rows.length)).findIdx? (fun row => matchers.all (fun m => m row))).getD 0

/-- Index-carrying loop of `findColumnIndex`. -/
def findColumnIndexAux (preds : List (String → Bool)) : ℕ → List Cell → ℤ
  | _, [] => -1
  | i, h :: rest =>
      let n := normalizeHeaderString (cellStr h)
      if n = "" then findColumnIndexAux preds (i + 1) rest
      else if preds.any (fun p => p n) then (i : ℤ)
      else findColumnIndexAux preds (i + 1) rest

/-- `findColumnIndex` (lines 207-214): scan the header cells
left-to-right, skip blanks, and return the first column whose
normalized text satisfies any predicate; `-1` when none does. -/
def findColumnIndex (headers : List Cell) (preds : List (String → Bool)) : ℤ :=
  findColumnIndexAux preds 0 headers

/-- The child-part role's predicate list (lines 561-568). -/
def childPartPreds : List (String → Bool) :=
  [fun h => strIncludes h "child part",
   fun h => h == "child",
   fun h => h == "childpart",
   fun h => strIncludes h "childpart",
   fun h => strIncludes h "component",
   fun h => strIncludes h "comp part"]

/-- The UOM role's predicate list (line 570). -/
def uomPreds : List (String → Bool) :=
  [fun h => h == "uom",
   fun h => strIncludes h " uom",
   fun h => strIncludes h "unit"]

/-! ### Lookup builders (lines 407-520) -/

/-- `buildMaterialMasterMap` (lines 407-435): key column 0, the policy
columns found by substring match on the lowercased header; rows with a
blank key are skipped; later rows overwrite earlier ones. -/
def buildMaterialMasterMap (headers : List Cell) (rows : List (List Cell)) : List (String × MmInfo) :=
  let mpqIdx := jsFindIndex headers (fun h => strIncludes (lowerString (cellStr h)) "mpq")
  let moqIdx := jsFindIndex headers (fun h => strIncludes (lowerString (cellStr h)) "moq")
  let reorderIdx := jsFindIndex headers (fun h => strIncludes (lowerString (cellStr h)) "reorder")
  let instockIdx := jsFindIndex headers (fun h =>
    strIncludes (lowerString (cellStr h)) "instock" || strIncludes (lowerString (cellStr h)) "in stock")
  let pendingPoIdx := jsFindIndex headers (fun h =>
    strIncludes (lowerString (cellStr h)) "pending po" || strIncludes (lowerString (cellStr h)) "pending_po")
  rows.foldl (fun m row =>
    let material := jsTrim (cellStrOpt (rowGet row 0))
    if material = "" then m
    else alSet m material
      ⟨toNumber (rowGet row mpqIdx), toNumber (rowGet row moqIdx), toNumber (rowGet row reorderIdx),
       toNumber (rowGet row instockIdx), toNumber (rowGet row pendingPoIdx)⟩) []

/-- One supplier-details entry (lines 437-438). -/
structure SupplierInfo where
  vendor : String
  vendorLeadTime : ℚ
  transportTime : ℚ
  totalLeadTime : ℚ
deriving DecidableEq, Repr

/-- Supplier vendor lead-time column index (line 441). -/
def sdVendorLeadTimeIdx (headers : List Cell) : ℤ :=
  jsFindIndex headers (fun h => strIncludes (lowerString (cellStr h)) "vendor lead-time")

/-- Supplier transport-time column index (line 442). -/
def sdTransportTimeIdx (headers : List Cell) : ℤ :=
  jsFindIndex headers (fun h => strIncludes (lowerString (cellStr h)) "transport time")

/-- The supplier entry one data row yields (lines 447-450): vendor in
column 1, lead-time cells coerced to numbers, total as their sum. -/
def supplierEntryOf (headers : List Cell) (row : List Cell) : SupplierInfo :=
  let vendorLeadTime := toNumber (rowGet row (sdVendorLeadTimeIdx headers))
  let transportTime := toNumber (rowGet row (sdTransportTimeIdx headers))
  ⟨jsTrim (cellStrOpt (rowGet row 1)), vendorLeadTime, transportTime, qAdd vendorLeadTime transportTime⟩

/-- One fold step of `buildSupplierDetailsMap` (lines 444-455): skip
blank materials, store the row's entry if the material is new or the
new total lead time is strictly smaller than the stored one. -/
def supplierStep (headers : List Cell) (m : List (String × SupplierInfo)) (row : List Cell) :
    List (String × SupplierInfo) :=
  let material := jsTrim (cellStrOpt (rowGet row 0))
  if material = "" then m
  else
    let e := supplierEntryOf headers row
    match alGet m material with
    | none => alSet m material e
    | some old => if e.totalLeadTime < old.totalLeadTime then alSet m material e else m

/-- `buildSupplierDetailsMap` (lines 437-458): material in column 0,
vendor in column 1, lead-time columns by substring header match; an
existing entry is replaced only when the new row's total lead time is
strictly smaller. -/
def buildSupplierDetailsMap (headers : List Cell) (rows : List (List Cell)) : List (String × SupplierInfo) :=
  rows.foldl (supplierStep headers) []

/-- One BOM edge payload (line 485). -/
structure BomItem where
  childPart : String
  quantity : ℚ
deriving DecidableEq, Repr

/-- BOM derived-material column index (line 469). -/
def bomDerivedIdx (bomHeaders : List Cell) : ℤ :=
  jsFindIndex bomHeaders (fun h => strIncludes (lowerString (cellStr h)) "derived material")

/-- BOM child-part column index (line 470). -/
def bomChildIdx (bomHeaders : List Cell) : ℤ :=
  jsFindIndex bomHeaders (fun h => strIncludes (lowerString (cellStr h)) "child part")

/-- BOM quantity column index (lines 471-474). -/
def bomQtyIdx (bomHeaders : List Cell) : ℤ :=
  jsFindIndex bomHeaders (fun h =>
    strIncludes (lowerString (cellStr h)) "quantity" || strIncludes (lowerString (cellStr h)) "per kit")

/-- Production-plan derived-material column index (line 475). -/
def idpDerivedIdx (idpHeaders : List Cell) : ℤ :=
  jsFindIndex idpHeaders (fun h => strIncludes (lowerString (cellStr h)) "derived material")

/-- The production-plan week columns kept by the demand exploder
(lines 477-483): header matches the period pattern and is a member of
the selected window. -/
def buildWeekCols (idpHeaders : List Cell) (selectedWeeks : List String) : List (ℤ × String) :=
  idpHeaders.enum.filterMap (fun p =>
    let s := jsTrim (cellStr p.2)
    if s ≠ "" ∧ isPeriodStr s ∧ selectedWeeks.contains s then some ((p.1 : ℤ), s) else none)

/-- The parent-to-edges lookup of the demand exploder (lines 485-494):
edges with a blank parent, blank child or non-positive quantity are
dropped; edges of one parent accumulate in row order. -/
def buildBomLookup (bomRows : List (List Cell)) (dIdx cIdx qIdx : ℤ) : List (String × List BomItem) :=
  bomRows.foldl (fun m row =>
    let derivedMaterial := jsTrim (cellStrOpt (rowGet row dIdx))
    let childPart := jsTrim (cellStrOpt (rowGet row cIdx))
    let qty := toNumber (rowGet row qIdx)
    if derivedMaterial = "" ∨ childPart = "" ∨ qty ≤ 0 then m
    else alSet m derivedMaterial (alGetD m derivedMaterial [] ++ [⟨childPart, qty⟩])) []

/-- One accumulation step of the demand map (lines 505-510). -/
def demandBump (dm : List (String × List (String × ℚ))) (c w : String) (dq : ℚ) :
    List (String × List (String × ℚ)) :=
  let weekMap := alGetD dm c []
  alSet dm c (alSet weekMap w (qAdd (alGetD weekMap w 0) dq))

/-- The inner week-column step of the demand exploder (lines 501-511):
skip non-positive produced quantities, otherwise add
`producedQty × quantityPerParentUnit` for every BOM item of the row's
parent. -/
def demandWeekStep (row : List Cell) (bomItems : List BomItem)
    (dm2 : List (String × List (String × ℚ))) (wk : ℤ × String) :
    List (String × List (String × ℚ)) :=
  let productionQty := toNumber (rowGet row wk.1)
  if productionQty ≤ 0 then dm2
  else bomItems.foldl (fun dm3 item =>
    demandBump dm3 item.childPart wk.2 (qMul productionQty item.quantity)) dm2

/-- The per-plan-row step of the demand exploder (lines 496-512): skip
blank parents, otherwise walk the week columns. -/
def demandRowStep (idpDIdx : ℤ) (weekCols : List (ℤ × String))
    (bomLookup : List (String × List BomItem)) (dm : List (String × List (String × ℚ)))
    (row : List Cell) : List (String × List (String × ℚ)) :=
  let derivedMaterial := jsTrim (cellStrOpt (rowGet row idpDIdx))
  if derivedMaterial = "" then dm
  else
    let bomItems := alGetD bomLookup derivedMaterial []
    weekCols.foldl (demandWeekStep row bomItems) dm

/-- `buildProductionDemandMap` (lines 460-515): for every plan row and
selected week column with positive produced quantity, add
`producedQty × quantityPerParentUnit` to every matching BOM child's
period bucket. -/
def buildProductionDemandMap (idpHeaders : List Cell) (idpRows : List (List Cell))
    (bomHeaders : List Cell) (bomRows : List (List Cell)) (selectedWeeks : List String) :
    List (String × List (String × ℚ)) :=
  let weekCols := buildWeekCols idpHeaders selectedWeeks
  let bomLookup := buildBomLookup bomRows (bomDerivedIdx bomHeaders) (bomChildIdx bomHeaders) (bomQtyIdx bomHeaders)
  idpRows.foldl (demandRowStep (idpDerivedIdx idpHeaders) weekCols bomLookup) []

/-- `lookupBomUom` (lines 517-520). -/
def lookupBomUom (material : String) (bomRows : List (List Cell)) (childPartIdx uomIdx : ℤ) : String :=
  match bomRows.find? (fun r => jsTrim (cellStrOpt (rowGet r childPartIdx)) == material) with
  | some row => jsTrim (cellStrOpt (rowGet row uomIdx))
  | none => ""

/-! ### Orchestration (lines 522-702) -/

/-- First-occurrence deduplication, the JS `[...new Set(list)]`. -/
def dedupFirstAux (seen : List String) : List String → List String
  | [] => []
  | x :: rest =>
      if seen.contains x then dedupFirstAux seen rest
      else x :: dedupFirstAux (x :: seen) rest

/-- JS `[...new Set(list)]`: first occurrences in order. -/
def dedupFirst (l : List String) : List String := dedupFirstAux [] l

/-- The output record per BOM child material (lines 13-28, 667-682). -/
structure MrpRow where
  material : String
  uom : String
  supplierCode : String
  mpq : ℚ
  moq : ℚ
  reorder : ℚ
  instock : ℚ
  pendingPo : ℚ
  excessQty : ℚ
  leadTime : ℚ
  weeklyDemand : List (String × ℚ)
  weeklyMrpQty : List (String × ℚ)
  weeklyPoDate : List (String × String)
  totalDemand : ℚ
deriving DecidableEq, Repr

/-- The fatal error dialogs of `calculateMrpDataInternal`
(lines 535-546, 572-588), each aborting before any row is built. -/
inductive MrpErr where
  | bomMissing
  | idpMissing
  | referenceMissing
  | childPartColumnMissing (sheetName : String) (headerPreview : List String)
deriving DecidableEq, Repr

/-- The five data sources handed to `calculateMrpDataInternal`
(lines 522-528). -/
structure MrpInputs where
  bom : Option ParsedExcel
  materialMaster : Option ParsedExcel
  idp : Option ParsedExcel
  supplierDetails : Option ParsedExcel
  weekPlan : Option ParsedExcel
deriving DecidableEq, Repr

/-- What a successful run publishes (lines 685-687): the rows and the
full/selected week column lists. -/
structure MrpOutput where
  mrpData : List MrpRow
  allWeekColumns : List String
  weekColumns : List String
deriving DecidableEq, Repr

deriving instance DecidableEq for Except

/-- `!doc?.jsonData?.length` (lines 535, 539, 543). -/
def docEmpty (o : Option ParsedExcel) : Bool :=
  match o with
  | none => true
  | some p => p.jsonData.isEmpty

/-- One BOM header-row matcher (lines 551-555): some cell whose
normalized text contains `q`. -/
def rowHasNormalized (q : String) (row : List Cell) : Bool :=
  row.any (fun c => strIncludes (normalizeHeaderString (cellStr c)) q)

/-- The week-number window filter (lines 607-610): `Number` of the part
before the dot lies in `[startWeek, endWeek]`; NaN weeks never match. -/
def selectedWeekFilter (startWeek endWeek : ℚ) (w : String) : Bool :=
  match (splitOnChar '.' w).get? 0 with
  | none => false
  | some s0 =>
      match jsNumber s0 with
      | some n => decide (startWeek ≤ n) && decide (n ≤ endWeek)
      | none => false

/-- The year filter (line 606): the part after the dot equals the
selected year string. -/
def yearFilter (selectedYear : String) (w : String) : Bool :=
  (splitOnChar '.' w).get? 1 == some selectedYear

/-- All period columns of the production-plan header (lines 600-604). -/
def allWeeksOf (idpHeaders : List Cell) : List String :=
  idpHeaders.filterMap (fun h =>
    let s := jsTrim (cellStr h)
    if s ≠ "" ∧ isPeriodStr s then some s else none)

/-- The header preview carried by the column error (lines 573-577). -/
def headerPreviewOf (bomHeaders : List Cell) : List String :=
  ((bomHeaders.map (fun h => jsTrim (cellStr h))).filter (fun s => s != "")).take 25

/-- `calculateMrpDataInternal` (lines 522-702): guards, BOM schema
resolution, window selection, lookup maps, and one output row per
distinct BOM child material.  The error dialogs of the source become
`Except.error`; `x || 0` on rationals is the identity and is written
plainly. -/
def calculateMrpDataInternal (inputs : MrpInputs) (selectedYear : String) (startWeek endWeek : ℚ) :
    Except MrpErr MrpOutput :=
  if docEmpty inputs.bom then Except.error MrpErr.bomMissing
  else if docEmpty inputs.idp then Except.error MrpErr.idpMissing
  else if docEmpty inputs.materialMaster || docEmpty inputs.supplierDetails then
    Except.error MrpErr.referenceMissing
  else
    let bom := inputs.bom.getD ⟨"Sheet1", []⟩
    let materialMaster := inputs.materialMaster.getD ⟨"Sheet1", []⟩
    let idp := inputs.idp.getD ⟨"Sheet1", []⟩
    let supplierDetails := inputs.supplierDetails.getD ⟨"Sheet1", []⟩
    let bomAllRows := bom.jsonData
    let bomHeaderRowIndex := findHeaderRowIndex bomAllRows [rowHasNormalized "child", rowHasNormalized "derived"] 10
    let bomHeaders := (bomAllRows.get? bomHeaderRowIndex).getD []
    let bomRows := bomAllRows.drop (bomHeaderRowIndex + 1)
    let childPartIdx := findColumnIndex bomHeaders childPartPreds
    let uomIdx := findColumnIndex bomHeaders uomPreds
    if childPartIdx = -1 then
      Except.error (MrpErr.childPartColumnMissing bom.sheetName (headerPreviewOf bomHeaders))
    else
      let uniqueMaterials := dedupFirst
        ((bomRows.map (fun r => jsTrim (cellStrOpt (rowGet r childPartIdx)))).filter (fun s => s != ""))
      let mmHeaders := (materialMaster.jsonData.get? 0).getD []
      let mmRows := materialMaster.jsonData.drop 1
      let sdHeaders := (supplierDetails.jsonData.get? 0).getD []
      let sdRows := supplierDetails.jsonData.drop 1
      let idpHeaders := (idp.jsonData.get? 0).getD []
      let idpRows := idp.jsonData.drop 1
      let allWeeks := allWeeksOf idpHeaders
      let weeksInYear := allWeeks.filter (yearFilter selectedYear)
      let selectedWeeks := weeksInYear.filter (selectedWeekFilter startWeek endWeek)
      let materialMasterMap := buildMaterialMasterMap mmHeaders mmRows
      let supplierDetailsMap := buildSupplierDetailsMap sdHeaders sdRows
      let productionDemandMap := buildProductionDemandMap idpHeaders idpRows bomHeaders bomRows selectedWeeks
      let mrpData := uniqueMaterials.map (fun material =>
        let mmInfo := (alGet materialMasterMap material).getD ⟨0, 0, 0, 0, 0⟩
        let sdInfo := (alGet supplierDetailsMap material).getD ⟨"", 0, 0, 0⟩
        let demandByWeek := alGetD productionDemandMap material []
        let excessQty := qAdd mmInfo.instock mmInfo.pendingPo
        let w := mrpWalk mmInfo selectedWeeks sdInfo.totalLeadTime inputs.weekPlan
          ⟨[], [], [], 0, excessQty⟩ demandByWeek
        { material := material
          uom := lookupBomUom material bomRows childPartIdx uomIdx
          supplierCode := sdInfo.vendor
          mpq := mmInfo.mpq
          moq := mmInfo.moq
          reorder := mmInfo.reorder
          instock := mmInfo.instock
          pendingPo := mmInfo.pendingPo
          excessQty := excessQty
          leadTime := sdInfo.totalLeadTime
          weeklyDemand := w.weeklyDemand
          weeklyMrpQty := w.weeklyMrpQty
          weeklyPoDate := w.weeklyPoDate
          totalDemand := w.totalDemand })
      Except.ok ⟨mrpData, allWeeks, selectedWeeks⟩

/-! ### Bridge lemmas for the reducible rational wrappers -/

theorem qAdd_eq (a b : ℚ) : qAdd a b = a + b := by
  have hda : ((a.den : ℚ)) ≠ 0 := by exact_mod_cast a.den_ne_zero
  have hdb : ((b.den : ℚ)) ≠ 0 := by exact_mod_cast b.den_ne_zero
  rw [qAdd, Rat.mkRat_eq_divInt, Rat.divInt_eq_div]
  conv_rhs => rw [← Rat.num_div_den a, ← Rat.num_div_den b]
  rw [div_add_div _ _ hda hdb]
  push_cast
  ring_nf

theorem qSub_eq (a b : ℚ) : qSub a b = a - b := by
  rw [qSub, qAdd_eq, sub_eq_add_neg]

theorem qMul_eq (a b : ℚ) : qMul a b = a * b := by
  have hda : ((a.den : ℚ)) ≠ 0 := by exact_mod_cast a.den_ne_zero
  have hdb : ((b.den : ℚ)) ≠ 0 := by exact_mod_cast b.den_ne_zero
  rw [qMul, Rat.mkRat_eq_divInt, Rat.divInt_eq_div]
  conv_rhs => rw [← Rat.num_div_den a, ← Rat.num_div_den b]
  rw [div_mul_div_comm]
  push_cast
  ring_nf

theorem qInv_eq (b : ℚ) : qInv b = b⁻¹ := by
  rw [qInv, Rat.inv_def']
  rcases lt_trichotomy b.num 0 with hlt | heq | hgt
  · rw [if_pos hlt, Rat.mkRat_eq_divInt]
    have habs : (b.num.natAbs : ℤ) = -b.num := Int.ofNat_natAbs_of_nonpos hlt.le
    rw [habs, Rat.divInt_neg, neg_neg]
  · rw [if_neg (by omega), Rat.mkRat_eq_divInt, heq]
    norm_num
  · rw [if_neg (by omega), Rat.mkRat_eq_divInt]
    have habs : (b.num.natAbs : ℤ) = b.num := Int.natAbs_of_nonneg hgt.le
    rw [habs]

theorem qDiv_eq (a b : ℚ) : qDiv a b = a / b := by
  rw [qDiv, qMul_eq, qInv_eq, div_eq_mul_inv]

/-! ### Association-list lemmas -/

theorem alGet_alSet {α : Type} (l : List (String × α)) (k k' : String) (v : α) :
    alGet (alSet l k v) k' = if k = k' then some v else alGet l k' := by
  induction l with
  | nil =>
      by_cases h : k = k' <;> simp [alSet, alGet, h]
  | cons hd tl ih =>
      obtain ⟨a, b⟩ := hd
      by_cases hak : a = k
      · subst hak
        by_cases hk' : a = k' <;> simp [alSet, alGet, hk', ih]
      · by_cases hak' : a = k'
        · subst hak'
          have hk : ¬ k = a := fun h => hak h.symm
          simp [alSet, hak, alGet, hk]
        · simp [alSet, hak, alGet, hak', ih]

theorem mem_alSet {α : Type} {l : List (String × α)} {k : String} {v : α} {p : String × α}
    (hp : p ∈ alSet l k v) : p = (k, v) ∨ p ∈ l := by
  induction l with
  | nil => simpa [alSet] using hp
  | cons hd tl ih =>
      obtain ⟨a, b⟩ := hd
      by_cases hak : a = k
      · subst hak
        rcases (by simpa [alSet] using hp : p = (a, v) ∨ p ∈ tl) with h | h
        · exact Or.inl (by simpa using h)
        · exact Or.inr (List.mem_cons_of_mem _ h)
      · rcases (by simpa [alSet, hak] using hp : p = (a, b) ∨ p ∈ alSet tl k v) with h | h
        · exact Or.inr (by simp [h])
        · rcases ih h with h' | h'
          · exact Or.inl h'
          · exact Or.inr (List.mem_cons_of_mem _ h')

theorem alSet_fst_mem {α : Type} {l : List (String × α)} {k : String} {v : α} {x : String}
    (hx : x ∈ (alSet l k v).map Prod.fst) : x = k ∨ x ∈ l.map Prod.fst := by
  rcases List.mem_map.1 hx with ⟨p, hp, rfl⟩
  rcases mem_alSet hp with h | h
  · exact Or.inl (by simp [h])
  · exact Or.inr (List.mem_map_of_mem _ h)

theorem alSet_nodup_fst {α : Type} {l : List (String × α)} {k : String} {v : α}
    (h : (l.map Prod.fst).Nodup) : ((alSet l k v).map Prod.fst).Nodup := by
  induction l with
  | nil => simp [alSet]
  | cons hd tl ih =>
      obtain ⟨a, b⟩ := hd
      simp only [List.map_cons, List.nodup_cons] at h
      by_cases hak : a = k
      · subst hak
        simpa [alSet] using h
      · have hstep : alSet ((a, b) :: tl) k v = (a, b) :: alSet tl k v := by
          simp [alSet, hak]
        rw [hstep, List.map_cons, List.nodup_cons]
        refine ⟨?_, ih h.2⟩
        intro hmem
        rcases alSet_fst_mem hmem with h' | h'
        · exact hak h'
        · exact h.1 h'

theorem alSet_of_not_mem {α : Type} {l : List (String × α)} {k : String} {v : α}
    (h : k ∉ l.map Prod.fst) : alSet l k v = l ++ [(k, v)] := by
  induction l with
  | nil => simp [alSet]
  | cons hd tl ih =>
      obtain ⟨a, b⟩ := hd
      simp only [List.map_cons, List.mem_cons] at h
      push_neg at h
      have hak : ¬ a = k := fun hh => h.1 hh.symm
      simp [alSet, hak, ih h.2]

theorem alGet_mem {α : Type} {l : List (String × α)} {k : String} {v : α}
    (h : alGet l k = some v) : (k, v) ∈ l := by
  induction l with
  | nil => simp [alGet] at h
  | cons hd tl ih =>
      obtain ⟨a, b⟩ := hd
      by_cases hak : a = k
      · subst hak
        have hb : b = v := by simpa [alGet] using h
        subst hb
        exact List.mem_cons_self _ _
      · simp only [alGet, hak, if_false] at h
        exact List.mem_cons_of_mem _ (ih h)

/-! ### Netting step lemmas -/

theorem periodNextExcess_le (re qty : ℚ) : periodNextExcess re qty ≤ re := by
  simp only [periodNextExcess, qSub_eq]
  split
  · split
    · split <;> linarith
    · linarith
  · linarith

theorem periodNextExcess_nonneg {re : ℚ} (qty : ℚ) (h : 0 ≤ re) : 0 ≤ periodNextExcess re qty := by
  simp only [periodNextExcess, qSub_eq]
  split
  · split
    · split <;> linarith
    · linarith
  · linarith

theorem excessTrace_chain (re : ℚ) (qtys : List ℚ) :
    List.Chain' (fun a b => b ≤ a) (re :: excessTrace re qtys) := by
  induction qtys generalizing re with
  | nil => simp [excessTrace]
  | cons q rest ih =>
      have hc : List.Chain' (fun a b => b ≤ a)
          (re :: periodNextExcess re q :: excessTrace (periodNextExcess re q) rest) :=
        List.Chain'.cons (periodNextExcess_le re q) (ih (periodNextExcess re q))
      simpa [excessTrace] using hc

theorem excessTrace_nonneg {re : ℚ} (qtys : List ℚ) (h : 0 ≤ re) :
    ∀ x ∈ excessTrace re qtys, 0 ≤ x := by
  induction qtys generalizing re with
  | nil => simp [excessTrace]
  | cons q rest ih =>
      intro x hx
      rcases (by simpa [excessTrace] using hx :
          x = periodNextExcess re q ∨ x ∈ excessTrace (periodNextExcess re q) rest) with h' | h'
      · subst h'
        exact periodNextExcess_nonneg q h
      · exact ih (periodNextExcess_nonneg q h) x h'

theorem excessTrace_consumed (re : ℚ) (qtys : List ℚ) :
    (List.zipWith (fun a b => a - b) (re :: excessTrace re qtys) (excessTrace re qtys)).sum
      = re - List.foldl periodNextExcess re qtys := by
  induction qtys generalizing re with
  | nil => simp [excessTrace]
  | cons q rest ih =>
      simp only [excessTrace, List.zipWith, List.sum_cons, List.foldl, ih (periodNextExcess re q)]
      ring

theorem foldl_periodNextExcess_nonneg {re : ℚ} (qtys : List ℚ) (h : 0 ≤ re) :
    0 ≤ List.foldl periodNextExcess re qtys := by
  induction qtys generalizing re with
  | nil => simpa
  | cons q rest ih => exact ih (periodNextExcess_nonneg q h)

theorem mrpWalk_remainingExcess (mm : MmInfo) (sel : List String) (lead : ℚ)
    (wp : Option ParsedExcel) (acc : WalkAcc) (entries : List (String × ℚ)) :
    (mrpWalk mm sel lead wp acc entries).remainingExcess
      = List.foldl periodNextExcess acc.remainingExcess (entries.map Prod.snd) := by
  induction entries generalizing acc with
  | nil => simp [mrpWalk]
  | cons e rest ih =>
      obtain ⟨week, qty⟩ := e
      simp [mrpWalk, ih]

/-- `netAdjusted` is non-negative on positive gross demand. -/
theorem netAdjusted_nonneg {re qty : ℚ} (hq : 0 < qty) : 0 ≤ netAdjusted re qty := by
  simp only [netAdjusted, qSub_eq]
  split
  · split <;> linarith
  · linarith

/-- C1: in the per-material walk, every period with positive gross
demand whose netted `adjustedDemand` is still positive gets a
`requiredQty` that follows the strict priority cascade — reorder point
first (`reorderPoint + adjustedDemand`), else MOQ when
`moq > adjustedDemand`, else rounding up to the next multiple of MPQ,
else the adjusted demand verbatim; concretely, with
`reorderPoint = 50, moq = 100, mpq = 10` and an adjusted demand of
`20`, the recorded quantity is `70`. -/
theorem c1_lot_sizing_cascade (mm : MmInfo) (re qty : ℚ)
    (hq : 0 < qty) (had : 0 < netAdjusted re qty) :
    (periodRequiredQty mm re qty =
      (if 0 < mm.reorder then mm.reorder + netAdjusted re qty
       else if netAdjusted re qty < mm.moq then mm.moq
       else if 0 < mm.mpq then (⌈netAdjusted re qty / mm.mpq⌉ : ℚ) * mm.mpq
       else netAdjusted re qty))
    ∧ (mrpWalk ⟨10, 100, 50, 0, 0⟩ [] 0 none ⟨[], [], [], 0, 0⟩ [("01.2024", 20)]).weeklyMrpQty
        = [("01.2024", 70)] := by
  constructor
  · simp only [periodRequiredQty, if_pos hq, if_pos had]
    simp only [lotSizedQty, qAdd_eq, qMul_eq, qDiv_eq]
  · decide

theorem c1_lot_sizing_cascade_witness :
    periodRequiredQty ⟨10, 100, 50, 0, 0⟩ 0 20 = 50 + netAdjusted 0 20 := by
  have h := (c1_lot_sizing_cascade ⟨10, 100, 50, 0, 0⟩ 0 20 (by norm_num) (by decide)).1
  rw [h]
  norm_num

/-- C2: along one material's sequential walk, the running
`remainingExcess` starts at `excessQty = instock + pendingPo`, never
increases from period to period, never becomes negative, and the total
excess consumed (the telescoping sum of per-period decrements) never
exceeds `excessQty`; the walk of `calculateMrpDataInternal` threads
exactly this fold.  The non-negativity hypothesis is the data-model
constraint that stock figures are non-negative. -/
theorem c2_excess_netting_invariants (mm : MmInfo) (qtys : List ℚ)
    (h0 : 0 ≤ mm.instock + mm.pendingPo) :
    List.Chain' (fun a b => b ≤ a)
      ((mm.instock + mm.pendingPo) :: excessTrace (mm.instock + mm.pendingPo) qtys)
    ∧ (∀ x ∈ excessTrace (mm.instock + mm.pendingPo) qtys, 0 ≤ x)
    ∧ (List.zipWith (fun a b => a - b)
        ((mm.instock + mm.pendingPo) :: excessTrace (mm.instock + mm.pendingPo) qtys)
        (excessTrace (mm.instock + mm.pendingPo) qtys)).sum ≤ mm.instock + mm.pendingPo
    ∧ ∀ (sel : List String) (lead : ℚ) (wp : Option ParsedExcel) (entries : List (String × ℚ)),
        entries.map Prod.snd = qtys →
        (mrpWalk mm sel lead wp ⟨[], [], [], 0, qAdd mm.instock mm.pendingPo⟩ entries).remainingExcess
          = List.foldl periodNextExcess (mm.instock + mm.pendingPo) qtys := by
  refine ⟨excessTrace_chain _ _, excessTrace_nonneg _ h0, ?_, ?_⟩
  · rw [excessTrace_consumed]
    have := foldl_periodNextExcess_nonneg qtys h0
    linarith
  · intro sel lead wp entries hmap
    rw [mrpWalk_remainingExcess]
    simp [qAdd_eq, hmap]

theorem c2_excess_netting_invariants_witness :
    (∀ x ∈ excessTrace ((30 : ℚ) + 0) [10, 40], 0 ≤ x)
    ∧ (mrpWalk ⟨0, 0, 0, 30, 0⟩ ["01.2024"] 0 none
        ⟨[], [], [], 0, qAdd 30 0⟩ [("01.2024", 10), ("02.2024", 40)]).remainingExcess
        = List.foldl periodNextExcess (30 + 0) [10, 40] := by
  have h := c2_excess_netting_invariants ⟨0, 0, 0, 30, 0⟩ [10, 40] (by norm_num)
  exact ⟨h.2.1, h.2.2.2 ["01.2024"] 0 none [("01.2024", 10), ("02.2024", 40)] rfl⟩

/-- C4 counterexample: with `mpq = 10, moq = 15, reorderPoint = 0` and
a period demand of `5`, the walk records `requiredQty = 15` (the MOQ),
which is not an integer multiple of the MPQ `10` — refuting the claim
that `requiredQty` is always a multiple of `mpq` whenever
`mpq > 0` and `reorderPoint = 0`. -/
theorem c4_counterexample :
    (mrpWalk ⟨10, 15, 0, 0, 0⟩ [] 0 none ⟨[], [], [], 0, 0⟩ [("01.2024", 5)]).weeklyMrpQty
        = [("01.2024", 15)]
    ∧ ¬ ∃ n : ℤ, (15 : ℚ) = (n : ℚ) * 10 := by
  constructor
  · decide
  · rintro ⟨n, hn⟩
    have h2 : ((2 * n : ℤ) : ℚ) = ((3 : ℤ) : ℚ) := by push_cast; linarith
    have h3 : (2 * n : ℤ) = 3 := by exact_mod_cast h2
    omega

/-- C4 amended: for `mpq > 0` and `reorderPoint = 0`, every period's
`requiredQty` satisfies `requiredQty ≥ adjustedDemand`; and it is a
multiple of `mpq` whenever the MOQ branch is not taken
(`moq ≤ adjustedDemand`) — the MOQ branch may return a `moq` that is
not a multiple of `mpq`. -/
theorem c4_requiredQty_bounds (mm : MmInfo) (re qty : ℚ)
    (hmpq : 0 < mm.mpq) (hre : mm.reorder = 0) (hq : 0 < qty) :
    netAdjusted re qty ≤ periodRequiredQty mm re qty
    ∧ (mm.moq ≤ netAdjusted re qty → 0 < netAdjusted re qty →
        ∃ n : ℤ, periodRequiredQty mm re qty = (n : ℚ) * mm.mpq) := by
  have had0 : 0 ≤ netAdjusted re qty := netAdjusted_nonneg hq
  by_cases had : 0 < netAdjusted re qty
  · have hrq : periodRequiredQty mm re qty = lotSizedQty mm (netAdjusted re qty) := by
      simp only [periodRequiredQty, if_pos hq, if_pos had]
    rw [hrq]
    simp only [lotSizedQty, qAdd_eq, qMul_eq, qDiv_eq, hre]
    rw [if_neg (by norm_num)]
    constructor
    · by_cases hmoq : netAdjusted re qty < mm.moq
      · rw [if_pos hmoq]
        linarith
      · rw [if_neg hmoq, if_pos hmpq]
        have hceil : netAdjusted re qty / mm.mpq ≤ (⌈netAdjusted re qty / mm.mpq⌉ : ℚ) :=
          Int.le_ceil _
        calc netAdjusted re qty = netAdjusted re qty / mm.mpq * mm.mpq := by
              field_simp
          _ ≤ (⌈netAdjusted re qty / mm.mpq⌉ : ℚ) * mm.mpq :=
              mul_le_mul_of_nonneg_right hceil (le_of_lt hmpq)
    · intro hmoq _
      rw [if_neg (by linarith), if_pos hmpq]
      exact ⟨⌈netAdjusted re qty / mm.mpq⌉, rfl⟩
  · have had' : netAdjusted re qty = 0 := le_antisymm (le_of_not_lt had) had0
    have hz : periodRequiredQty mm re qty = 0 := by
      simp only [periodRequiredQty, if_pos hq, if_neg had]
    constructor
    · rw [hz, had']
    · intro _ hpos
      exact absurd hpos had

theorem c4_requiredQty_bounds_witness :
    netAdjusted 0 25 ≤ periodRequiredQty ⟨10, 0, 0, 0, 0⟩ 0 25
    ∧ ∃ n : ℤ, periodRequiredQty ⟨10, 0, 0, 0, 0⟩ 0 25 = (n : ℚ) * 10 := by
  have h := c4_requiredQty_bounds ⟨10, 0, 0, 0, 0⟩ 0 25 (by norm_num) rfl (by norm_num)
  exact ⟨h.1, h.2 (by decide) (by decide)⟩

/-- C7: an empty or absent BOM, production plan, material master or
supplier details source makes `calculateMrpDataInternal` abort with the
corresponding named error before any row is computed; no `Except.ok`
row list is ever produced in those cases. -/
theorem c7_missing_source_aborts (inputs : MrpInputs) (y : String) (sw ew : ℚ) :
    (docEmpty inputs.bom = true →
        calculateMrpDataInternal inputs y sw ew = Except.error MrpErr.bomMissing)
    ∧ (docEmpty inputs.bom = false → docEmpty inputs.idp = true →
        calculateMrpDataInternal inputs y sw ew = Except.error MrpErr.idpMissing)
    ∧ (docEmpty inputs.bom = false → docEmpty inputs.idp = false →
        (docEmpty inputs.materialMaster = true ∨ docEmpty inputs.supplierDetails = true) →
        calculateMrpDataInternal inputs y sw ew = Except.error MrpErr.referenceMissing)
    ∧ ((docEmpty inputs.bom = true ∨ docEmpty inputs.idp = true
        ∨ docEmpty inputs.materialMaster = true ∨ docEmpty inputs.supplierDetails = true) →
        ∀ out, calculateMrpDataInternal inputs y sw ew ≠ Except.ok out) := by
  refine ⟨?_, ?_, ?_, ?_⟩
  · intro h
    simp [calculateMrpDataInternal, h]
  · intro h1 h2
    simp [calculateMrpDataInternal, h1, h2]
  · intro h1 h2 h3
    rcases h3 with h3 | h3 <;> simp [calculateMrpDataInternal, h1, h2, h3]
  · intro hcase out
    by_cases hb : docEmpty inputs.bom = true
    · simp [calculateMrpDataInternal, hb]
    · have hb' : docEmpty inputs.bom = false := by simpa using hb
      by_cases hi : docEmpty inputs.idp = true
      · simp [calculateMrpDataInternal, hb', hi]
      · have hi' : docEmpty inputs.idp = false := by simpa using hi
        rcases hcase with h | h | h | h
        · exact absurd h hb
        · exact absurd h hi
        · simp [calculateMrpDataInternal, hb', hi', h]
        · simp [calculateMrpDataInternal, hb', hi', h]

theorem c7_missing_source_aborts_witness :
    calculateMrpDataInternal ⟨none, none, none, none, none⟩ "2024" 1 20
      = Except.error MrpErr.bomMissing :=
  (c7_missing_source_aborts ⟨none, none, none, none, none⟩ "2024" 1 20).1 rfl

/-- JS `ToInteger` of an integer value is that integer. -/
theorem ratTrunc_intCast (n : ℤ) : ratTrunc (n : ℚ) = n := by
  unfold ratTrunc
  split <;> simp

/-- C6: with no usable week plan, a period `WW.YYYY` with positive
required quantity schedules its required-by date as January 1 of year
`YYYY` advanced by `WW × 7` days, subtracts the (whole-day) lead time,
and formats the result `DD-Mon-YY`; in particular period `05.2024` with
zero lead time prints `05-Feb-24`. -/
theorem c6_po_date_fallback :
    (∀ (s : String) (w y : ℕ) (lead : ℤ) (qty : ℚ),
      ((splitOnChar '.' s).get? 0).bind jsNumber = some (w : ℚ) →
      ((splitOnChar '.' s).get? 1).bind jsNumber = some (y : ℚ) →
      0 < qty →
      calculatePoDate s (lead : ℚ) qty none
        = formatPoDate (daysFromCivil (y : ℤ) 1 1 + 7 * (w : ℤ) - lead))
    ∧ calculatePoDate "05.2024" 0 1 none = "05-Feb-24" := by
  constructor
  · intro s w y lead qty h1 h2 hq
    have hy : ratTrunc ((y : ℕ) : ℚ) = (y : ℤ) := by
      have := ratTrunc_intCast (y : ℤ)
      simpa using this
    simp only [calculatePoDate, weekPlanDate, if_neg (not_le.2 hq), h1, h2]
    have hstep1 : ∀ d0 : ℤ, jsSetDate d0 (qAdd (dayOfMonth d0 : ℚ) (qMul (w : ℚ) 7))
        = d0 + 7 * (w : ℤ) := by
      intro d0
      unfold jsSetDate
      rw [qAdd_eq, qMul_eq]
      have hcast : ((dayOfMonth d0 : ℚ) + (w : ℚ) * 7) = ((dayOfMonth d0 + 7 * (w : ℤ) : ℤ) : ℚ) := by
        push_cast
        ring
      rw [hcast, ratTrunc_intCast]
      ring
    have hstep2 : ∀ d0 : ℤ, jsSetDate d0 (qSub (dayOfMonth d0 : ℚ) (lead : ℚ)) = d0 - lead := by
      intro d0
      unfold jsSetDate
      rw [qSub_eq]
      have hcast : ((dayOfMonth d0 : ℚ) - (lead : ℚ)) = ((dayOfMonth d0 - lead : ℤ) : ℚ) := by
        push_cast
        ring
      rw [hcast, ratTrunc_intCast]
      ring
    rw [hy, hstep1, hstep2]
  · decide

theorem c6_po_date_fallback_witness :
    calculatePoDate "05.2024" ((0 : ℤ) : ℚ) 1 none
      = formatPoDate (daysFromCivil ((2024 : ℕ) : ℤ) 1 1 + 7 * ((5 : ℕ) : ℤ) - 0) :=
  c6_po_date_fallback.1 "05.2024" 5 2024 0 1 (by decide) (by decide) (by norm_num)

/-- Does a header cell match any predicate of the role after
normalization (non-blank text satisfying some matcher)? -/
def colMatches (preds : List (String → Bool)) (h : Cell) : Prop :=
  normalizeHeaderString (cellStr h) ≠ ""
    ∧ ∃ p ∈ preds, p (normalizeHeaderString (cellStr h)) = true

theorem findColumnIndexAux_spec (preds : List (String → Bool)) (headers : List Cell) (k : ℕ) :
    (findColumnIndexAux preds k headers = -1 ∧ ∀ h ∈ headers, ¬ colMatches preds h)
    ∨ ∃ i : ℕ, findColumnIndexAux preds k headers = ((k + i : ℕ) : ℤ)
        ∧ (∃ h, headers.get? i = some h ∧ colMatches preds h)
        ∧ ∀ j < i, ∀ h, headers.get? j = some h → ¬ colMatches preds h := by
  induction headers generalizing k with
  | nil => exact Or.inl ⟨rfl, by simp⟩
  | cons h rest ih =>
      by_cases hn : normalizeHeaderString (cellStr h) = ""
      · have hrec : findColumnIndexAux preds k (h :: rest) = findColumnIndexAux preds (k + 1) rest := by
          simp [findColumnIndexAux, hn]
        have hfailh : ¬ colMatches preds h := fun hc => hc.1 hn
        rcases ih (k + 1) with ⟨hres, hfail⟩ | ⟨i, hres, hgood, hearlier⟩
        · refine Or.inl ⟨by rw [hrec, hres], ?_⟩
          intro h' hh'
          rcases List.mem_cons.1 hh' with rfl | hh'
          · exact hfailh
          · exact hfail h' hh'
        · refine Or.inr ⟨i + 1, ?_, ?_, ?_⟩
          · rw [hrec, hres]
            congr 1
            omega
          · simpa using hgood
          · intro j hj h' hh'
            cases j with
            | zero =>
                simp only [List.get?] at hh'
                cases hh'
                exact hfailh
            | succ j' =>
                exact hearlier j' (by omega) h' (by simpa using hh')
      · by_cases hm : preds.any (fun p => p (normalizeHeaderString (cellStr h))) = true
        · refine Or.inr ⟨0, ?_, ⟨h, rfl, hn, List.any_eq_true.1 hm⟩, by omega⟩
          simp [findColumnIndexAux, hn, hm]
        · have hfailh : ¬ colMatches preds h := by
            intro hc
            exact hm (List.any_eq_true.2 hc.2)
          have hrec : findColumnIndexAux preds k (h :: rest) = findColumnIndexAux preds (k + 1) rest := by
            simp only [findColumnIndexAux, if_neg hn]
            rw [if_neg (by simpa using hm)]
          rcases ih (k + 1) with ⟨hres, hfail⟩ | ⟨i, hres, hgood, hearlier⟩
          · refine Or.inl ⟨by rw [hrec, hres], ?_⟩
            intro h' hh'
            rcases List.mem_cons.1 hh' with rfl | hh'
            · exact hfailh
            · exact hfail h' hh'
          · refine Or.inr ⟨i + 1, ?_, ?_, ?_⟩
            · rw [hrec, hres]
              congr 1
              omega
            · simpa using hgood
            · intro j hj h' hh'
              cases j with
              | zero =>
                  simp only [List.get?] at hh'
                  cases hh'
                  exact hfailh
              | succ j' =>
                  exact hearlier j' (by omega) h' (by simpa using hh')

/-- C5 amended: `findColumnIndex` scans the header cells left-to-right
and returns the first column whose non-blank normalized text satisfies
ANY of the role's predicates (all earlier columns are blank or match no
predicate); the priority order of the predicate list has no influence
on which column wins, and `-1` is returned exactly when no column
matches. -/
theorem c5_first_any_match (headers : List Cell) (preds : List (String → Bool)) :
    (findColumnIndex headers preds = -1 ∧ ∀ h ∈ headers, ¬ colMatches preds h)
    ∨ ∃ i : ℕ, findColumnIndex headers preds = (i : ℤ)
        ∧ (∃ h, headers.get? i = some h ∧ colMatches preds h)
        ∧ ∀ j < i, ∀ h, headers.get? j = some h → ¬ colMatches preds h := by
  have h := findColumnIndexAux_spec preds headers 0
  simpa [findColumnIndex] using h

theorem c5_first_any_match_witness :
    (findColumnIndex [Cell.str "component", Cell.str "child part"] childPartPreds = -1
      ∧ ∀ h ∈ [Cell.str "component", Cell.str "child part"], ¬ colMatches childPartPreds h)
    ∨ ∃ i : ℕ,
        findColumnIndex [Cell.str "component", Cell.str "child part"] childPartPreds = (i : ℤ)
        ∧ (∃ h, [Cell.str "component", Cell.str "child part"].get? i = some h
            ∧ colMatches childPartPreds h)
        ∧ ∀ j < i, ∀ h, [Cell.str "component", Cell.str "child part"].get? j = some h →
            ¬ colMatches childPartPreds h :=
  c5_first_any_match [Cell.str "component", Cell.str "child part"] childPartPreds

/-- C5 counterexample: with headers `[component, child part]`, column 1
satisfies the claim's top-priority child-part matcher while column 0
satisfies none of the first four matchers (only the lower-priority
`component` matcher), yet `findColumnIndex` returns column 0, not
column 1 — matcher priority does not override column position. -/
theorem c5_counterexample :
    findColumnIndex [Cell.str "component", Cell.str "child part"] childPartPreds = 0
    ∧ findColumnIndex [Cell.str "component", Cell.str "child part"] childPartPreds ≠ 1
    ∧ (childPartPreds.take 1).any
        (fun p => p (normalizeHeaderString (cellStr (Cell.str "child part")))) = true
    ∧ (childPartPreds.take 4).any
        (fun p => p (normalizeHeaderString (cellStr (Cell.str "component")))) = false := by
  exact ⟨by decide, by decide, by decide, by decide⟩

/-! ### C9: supplier map keeps the earliest minimum-lead-time row -/

/-- The supplier entries of all data rows carrying material code `m`
(in row order). -/
def supplierCandidates (headers : List Cell) (rows : List (List Cell)) (m : String) :
    List SupplierInfo :=
  rows.filterMap (fun row =>
    if jsTrim (cellStrOpt (rowGet row 0)) = m then some (supplierEntryOf headers row) else none)

/-- The keep-strictly-smaller accumulator of the supplier fold. -/
def bestStep (acc : Option SupplierInfo) (c : SupplierInfo) : Option SupplierInfo :=
  match acc with
  | none => some c
  | some b => if c.totalLeadTime < b.totalLeadTime then some c else some b

/-- Left-to-right minimum with ties kept on the earlier entry. -/
def bestSupplier (cands : List SupplierInfo) : Option SupplierInfo :=
  cands.foldl bestStep none

theorem foldl_bestStep_some (rest : List SupplierInfo) (b : SupplierInfo) :
    ∃ e, rest.foldl bestStep (some b) = some e := by
  induction rest generalizing b with
  | nil => exact ⟨b, rfl⟩
  | cons c rest ih =>
      rcases ih (if c.totalLeadTime < b.totalLeadTime then c else b) with ⟨e, he⟩
      refine ⟨e, ?_⟩
      rw [← he]
      simp only [List.foldl, bestStep]
      split <;> simp

theorem bestSupplier_eq_none {cs : List SupplierInfo} (h : bestSupplier cs = none) : cs = [] := by
  cases cs with
  | nil => rfl
  | cons c rest =>
      rcases foldl_bestStep_some rest c with ⟨e, he⟩
      rw [bestSupplier, List.foldl, show bestStep none c = some c from rfl, he] at h
      cases h

theorem bestSupplier_append_single (cs : List SupplierInfo) (c : SupplierInfo) :
    bestSupplier (cs ++ [c]) = bestStep (bestSupplier cs) c := by
  simp [bestSupplier, List.foldl_append]

theorem bestSupplier_spec (cs : List SupplierInfo) :
    ∀ e, bestSupplier cs = some e →
      ∃ pre post, cs = pre ++ e :: post
        ∧ (∀ c ∈ pre, e.totalLeadTime < c.totalLeadTime)
        ∧ ∀ c ∈ cs, e.totalLeadTime ≤ c.totalLeadTime := by
  induction cs using List.reverseRecOn with
  | nil =>
      intro e h
      cases h
  | append_singleton rs c ih =>
      intro e h
      rw [bestSupplier_append_single] at h
      cases hb : bestSupplier rs with
      | none =>
          have hrs : rs = [] := bestSupplier_eq_none hb
          subst hrs
          rw [hb] at h
          have hec : e = c := by
            simpa [bestStep] using h.symm
          subst hec
          exact ⟨[], [], rfl, by simp, by simp⟩
      | some b =>
          rw [hb] at h
          rcases ih b hb with ⟨pre, post, hsplit, hpre, hall⟩
          by_cases hlt : c.totalLeadTime < b.totalLeadTime
          · have hec : e = c := by
              simp only [bestStep, if_pos hlt] at h
              exact (Option.some.injEq _ _ ▸ h).symm
            subst hec
            refine ⟨rs, [], by simp, ?_, ?_⟩
            · intro x hx
              exact lt_of_lt_of_le hlt (hall x hx)
            · intro x hx
              rcases List.mem_append.1 hx with hx | hx
              · exact le_of_lt (lt_of_lt_of_le hlt (hall x hx))
              · simp only [List.mem_singleton] at hx
                subst hx
                exact le_refl _
          · have heb : e = b := by
              simp only [bestStep, if_neg hlt] at h
              exact (Option.some.injEq _ _ ▸ h).symm
            subst heb
            refine ⟨pre, post ++ [c], by rw [hsplit]; simp, hpre, ?_⟩
            intro x hx
            rcases List.mem_append.1 hx with hx | hx
            · exact hall x hx
            · simp only [List.mem_singleton] at hx
              subst hx
              exact le_of_not_lt hlt

theorem buildSupplierDetailsMap_lookup (headers : List Cell) (rows : List (List Cell)) (m : String) :
    alGet (buildSupplierDetailsMap headers rows) m
      = if m = "" then none else bestSupplier (supplierCandidates headers rows m) := by
  induction rows using List.reverseRecOn with
  | nil =>
      by_cases hm : m = "" <;>
        simp [buildSupplierDetailsMap, supplierCandidates, bestSupplier, alGet, hm]
  | append_singleton rs r ih =>
      have hfold : buildSupplierDetailsMap headers (rs ++ [r])
          = supplierStep headers (buildSupplierDetailsMap headers rs) r := by
        simp [buildSupplierDetailsMap, List.foldl_append]
      have hcands : ∀ m', supplierCandidates headers (rs ++ [r]) m'
          = supplierCandidates headers rs m'
            ++ (if jsTrim (cellStrOpt (rowGet r 0)) = m' then [supplierEntryOf headers r] else []) := by
        intro m'
        simp only [supplierCandidates, List.filterMap_append]
        congr 1
        split <;> simp [*]
      rw [hfold]
      by_cases hmat : jsTrim (cellStrOpt (rowGet r 0)) = ""
      · have hstep : supplierStep headers (buildSupplierDetailsMap headers rs) r
            = buildSupplierDetailsMap headers rs := by
          simp [supplierStep, hmat]
        rw [hstep, ih, hcands m]
        by_cases hm : m = ""
        · simp [hm]
        · have hne : ¬ jsTrim (cellStrOpt (rowGet r 0)) = m := by
            rw [hmat]
            exact fun hh => hm hh.symm
          simp [hm, hne]
      · by_cases hm : m = ""
        · subst hm
          rw [if_pos rfl]
          have hnone : alGet (buildSupplierDetailsMap headers rs) "" = none := by
            rw [ih, if_pos rfl]
          simp only [supplierStep, if_neg hmat]
          cases hget : alGet (buildSupplierDetailsMap headers rs) (jsTrim (cellStrOpt (rowGet r 0))) with
          | none => simp [alGet_alSet, hmat, hnone]
          | some old =>
              by_cases hlt : (supplierEntryOf headers r).totalLeadTime < old.totalLeadTime
              · simp [if_pos hlt, alGet_alSet, hmat, hnone]
              · simp [if_neg hlt, hnone]
        · rw [if_neg hm, hcands m]
          by_cases heq : jsTrim (cellStrOpt (rowGet r 0)) = m
          · rw [if_pos heq, bestSupplier_append_single]
            have ihm : alGet (buildSupplierDetailsMap headers rs) m
                = bestSupplier (supplierCandidates headers rs m) := by
              rw [ih, if_neg hm]
            simp only [supplierStep, if_neg hmat, heq]
            rw [if_neg hm]
            cases hget : alGet (buildSupplierDetailsMap headers rs) m with
            | none =>
                rw [hget] at ihm
                rw [← ihm]
                simp [alGet_alSet, bestStep]
            | some b =>
                rw [hget] at ihm
                rw [← ihm]
                by_cases hlt : (supplierEntryOf headers r).totalLeadTime < b.totalLeadTime
                · simp [if_pos hlt, alGet_alSet, bestStep]
                · simp [if_neg hlt, bestStep, hget]
          · rw [if_neg heq]
            simp only [List.append_nil]
            simp only [supplierStep, if_neg hmat]
            cases hget : alGet (buildSupplierDetailsMap headers rs) (jsTrim (cellStrOpt (rowGet r 0))) with
            | none =>
                dsimp only
                rw [alGet_alSet, if_neg heq, ih, if_neg hm]
            | some old =>
                dsimp only
                by_cases hlt : (supplierEntryOf headers r).totalLeadTime < old.totalLeadTime
                · rw [if_pos hlt, alGet_alSet, if_neg heq, ih, if_neg hm]
                · rw [if_neg hlt, ih, if_neg hm]

/-- C9: whenever the supplier-details map stores an entry for a
material, that entry is one of the material's row entries, its
`totalLeadTime` (`vendorLeadTime + transportTime`) is minimal among all
rows carrying the material code, and every earlier row has a strictly
larger total — i.e. ties are broken in favor of the earlier row. -/
theorem c9_supplier_min_lead (headers : List Cell) (rows : List (List Cell)) (m : String)
    (e : SupplierInfo) (h : alGet (buildSupplierDetailsMap headers rows) m = some e) :
    ∃ pre post, supplierCandidates headers rows m = pre ++ e :: post
      ∧ (∀ c ∈ pre, e.totalLeadTime < c.totalLeadTime)
      ∧ ∀ c ∈ supplierCandidates headers rows m, e.totalLeadTime ≤ c.totalLeadTime := by
  rw [buildSupplierDetailsMap_lookup] at h
  by_cases hm : m = ""
  · rw [if_pos hm] at h
    cases h
  · rw [if_neg hm] at h
    exact bestSupplier_spec _ _ h

/-- Sample supplier sheet: `M1` appears three times, with totals
`10`, `3` and `3`; the second row is the earliest minimum. -/
def sdSampleHeaders : List Cell :=
  [Cell.str "Material", Cell.str "Vendor", Cell.str "Vendor Lead-Time", Cell.str "Transport Time"]

/-- Data rows of the sample supplier sheet. -/
def sdSampleRows : List (List Cell) :=
  [[Cell.str "M1", Cell.str "V1", Cell.str "5", Cell.str "5"],
   [Cell.str "M1", Cell.str "V2", Cell.str "1", Cell.str "2"],
   [Cell.str "M1", Cell.str "V3", Cell.str "1", Cell.str "2"]]

theorem c9_supplier_min_lead_witness :
    ∃ pre post, supplierCandidates sdSampleHeaders sdSampleRows "M1"
        = pre ++ (⟨"V2", 1, 2, 3⟩ : SupplierInfo) :: post
      ∧ (∀ c ∈ pre, (3 : ℚ) < c.totalLeadTime)
      ∧ ∀ c ∈ supplierCandidates sdSampleHeaders sdSampleRows "M1", (3 : ℚ) ≤ c.totalLeadTime :=
  c9_supplier_min_lead sdSampleHeaders sdSampleRows "M1" ⟨"V2", 1, 2, 3⟩ (by decide)

/-! ### C8: sheet selection is a first-tie-break argmax -/

/-- The sheets of a workbook that have a worksheet object, each paired
with its grid and score, in workbook order. -/
def scoredSheets (wb : Workbook) (type : DocType) : List (String × List (List Cell) × ℤ) :=
  wb.filterMap (fun entry =>
    match entry.2 with
    | none => none
    | some aoa => some (entry.1, aoa, scoreSheetByType type entry.1 aoa))

theorem scoreSheetByType_nonneg (type : DocType) (sn : String) (aoa : List (List Cell)) :
    0 ≤ scoreSheetByType type sn aoa := by
  cases type <;> simp only [scoreSheetByType] <;> (repeat' apply add_nonneg) <;>
    (split <;> norm_num)

theorem sheetFold_spec (type : DocType) (wb : Workbook) (name0 : String) :
    (scoredSheets wb type = []
      ∧ wb.foldl (sheetFoldStep type) (name0, -1, none) = (name0, -1, none))
    ∨ ∃ i entry, (scoredSheets wb type).get? i = some entry
        ∧ wb.foldl (sheetFoldStep type) (name0, -1, none) = (entry.1, entry.2.2, some entry.2.1)
        ∧ (∀ e ∈ scoredSheets wb type, e.2.2 ≤ entry.2.2)
        ∧ ∀ j < i, ∀ e, (scoredSheets wb type).get? j = some e → e.2.2 < entry.2.2 := by
  induction wb using List.reverseRecOn with
  | nil => exact Or.inl ⟨rfl, rfl⟩
  | append_singleton l x ih =>
      have hfold : (l ++ [x]).foldl (sheetFoldStep type) (name0, -1, none)
          = sheetFoldStep type (l.foldl (sheetFoldStep type) (name0, -1, none)) x := by
        rw [List.foldl_append]
        rfl
      cases hx : x.2 with
      | none =>
          have hsc : scoredSheets (l ++ [x]) type = scoredSheets l type := by
            simp [scoredSheets, List.filterMap_append, hx]
          have hstep : sheetFoldStep type (l.foldl (sheetFoldStep type) (name0, -1, none)) x
              = l.foldl (sheetFoldStep type) (name0, -1, none) := by
            simp [sheetFoldStep, hx]
          rw [hfold, hstep, hsc]
          exact ih
      | some aoa =>
          have hsc : scoredSheets (l ++ [x]) type
              = scoredSheets l type ++ [(x.1, aoa, scoreSheetByType type x.1 aoa)] := by
            simp [scoredSheets, List.filterMap_append, hx]
          rw [hfold, hsc]
          rcases ih with ⟨hemp, hres⟩ | ⟨i, entry, hget, hres, hmax, hstrict⟩
          · rw [hemp, hres]
            have hlt : (-1 : ℤ) < scoreSheetByType type x.1 aoa :=
              lt_of_lt_of_le (by norm_num) (scoreSheetByType_nonneg type x.1 aoa)
            refine Or.inr ⟨0, (x.1, aoa, scoreSheetByType type x.1 aoa), by simp, ?_, ?_, by omega⟩
            · simp [sheetFoldStep, hx, if_pos hlt]
            · intro e he
              simp only [List.nil_append, List.mem_singleton] at he
              subst he
              exact le_refl _
          · rw [hres]
            by_cases hlt : entry.2.2 < scoreSheetByType type x.1 aoa
            · refine Or.inr ⟨(scoredSheets l type).length, (x.1, aoa, scoreSheetByType type x.1 aoa),
                List.get?_concat_length _ _, ?_, ?_, ?_⟩
              · simp [sheetFoldStep, hx, if_pos hlt]
              · intro e he
                rcases List.mem_append.1 he with he | he
                · exact le_of_lt (lt_of_le_of_lt (hmax e he) hlt)
                · simp only [List.mem_singleton] at he
                  subst he
                  exact le_refl _
              · intro j hj e hetj
                rw [List.get?_append hj] at hetj
                exact lt_of_le_of_lt (hmax e (List.get?_mem hetj)) hlt
            · have hi : i < (scoredSheets l type).length := by
                rcases List.get?_eq_some.1 hget with ⟨hlen, _⟩
                exact hlen
              refine Or.inr ⟨i, entry, ?_, ?_, ?_, ?_⟩
              · rw [List.get?_append hi]
                exact hget
              · simp [sheetFoldStep, hx, if_neg hlt]
              · intro e he
                rcases List.mem_append.1 he with he | he
                · exact hmax e he
                · simp only [List.mem_singleton] at he
                  subst he
                  exact le_of_not_lt hlt
              · intro j hj e hetj
                rw [List.get?_append (lt_trans hj hi)] at hetj
                exact hstrict j hj e hetj

/-- C8: sheet scoring inspects only the sheet name and the first 15
rows of the grid; `parseExcelArrayBuffer` returns the scored sheet with
the strictly highest score, ties broken in favor of the
first-encountered sheet in workbook order, and when no sheet carries a
worksheet object (the only way nothing beats the `-1` sentinel, scores
being non-negative) it returns the first sheet name (`'Sheet1'` for an
empty workbook) with an empty grid. -/
theorem c8_sheet_selection (wb : Workbook) (type : DocType) :
    (∀ sn aoa, scoreSheetByType type sn aoa = scoreSheetByType type sn (aoa.take 15))
    ∧ (scoredSheets wb type = [] →
        parseExcelArrayBuffer wb type = ⟨(wb.head?.map Prod.fst).getD "Sheet1", []⟩)
    ∧ (scoredSheets wb type ≠ [] →
        ∃ i entry, (scoredSheets wb type).get? i = some entry
          ∧ parseExcelArrayBuffer wb type = ⟨entry.1, entry.2.1⟩
          ∧ (∀ e ∈ scoredSheets wb type, e.2.2 ≤ entry.2.2)
          ∧ ∀ j < i, ∀ e, (scoredSheets wb type).get? j = some e → e.2.2 < entry.2.2) := by
  refine ⟨?_, ?_, ?_⟩
  · intro sn aoa
    cases type <;> simp [scoreSheetByType, List.take_take]
  · intro hemp
    rcases sheetFold_spec type wb ((wb.head?.map Prod.fst).getD "Sheet1") with ⟨_, hres⟩ | ⟨i, entry, hget, _, _, _⟩
    · simp [parseExcelArrayBuffer, hres]
    · rw [hemp] at hget
      simp at hget
  · intro hne
    rcases sheetFold_spec type wb ((wb.head?.map Prod.fst).getD "Sheet1") with ⟨hemp, _⟩ | ⟨i, entry, hget, hres, hmax, hstrict⟩
    · exact absurd hemp hne
    · exact ⟨i, entry, hget, by simp [parseExcelArrayBuffer, hres], hmax, hstrict⟩

theorem c8_sheet_selection_witness :
    ((scoredSheets [("Data", some [[Cell.str "x"]]), ("BOM List", some [[Cell.str "Child Part"]])] DocType.bom = [] →
        parseExcelArrayBuffer [("Data", some [[Cell.str "x"]]), ("BOM List", some [[Cell.str "Child Part"]])] DocType.bom
          = ⟨"Data", []⟩))
    ∧ ∃ i entry,
        (scoredSheets [("Data", some [[Cell.str "x"]]), ("BOM List", some [[Cell.str "Child Part"]])] DocType.bom).get? i
          = some entry
        ∧ parseExcelArrayBuffer [("Data", some [[Cell.str "x"]]), ("BOM List", some [[Cell.str "Child Part"]])] DocType.bom
          = ⟨entry.1, entry.2.1⟩
        ∧ (∀ e ∈ scoredSheets [("Data", some [[Cell.str "x"]]), ("BOM List", some [[Cell.str "Child Part"]])] DocType.bom,
            e.2.2 ≤ entry.2.2)
        ∧ ∀ j < i, ∀ e,
            (scoredSheets [("Data", some [[Cell.str "x"]]), ("BOM List", some [[Cell.str "Child Part"]])] DocType.bom).get? j
              = some e → e.2.2 < entry.2.2 := by
  have h := c8_sheet_selection [("Data", some [[Cell.str "x"]]), ("BOM List", some [[Cell.str "Child Part"]])] DocType.bom
  exact ⟨h.2.1, h.2.2 (by decide)⟩

/-! ### C3: BOM explosion is a sum over (plan row, BOM edge) pairs -/

/-- Gross demand recorded for child `c` in period `w`
(`demandMap.get(c)?.get(w) ?? 0`). -/
def demandLookup (dm : List (String × List (String × ℚ))) (c w : String) : ℚ :=
  alGetD (alGetD dm c []) w 0

/-- The contribution of one BOM data row to child `c` for a plan cell
producing `producedQty` units of `parent`: `producedQty × quantity`
when the edge is valid (non-blank parent and child, positive quantity)
and matches, zero otherwise. -/
def bomEdgeContrib (dIdx cIdx qIdx : ℤ) (bomRow : List Cell) (parent child : String)
    (producedQty : ℚ) : ℚ :=
  let d := jsTrim (cellStrOpt (rowGet bomRow dIdx))
  let ch := jsTrim (cellStrOpt (rowGet bomRow cIdx))
  let bq := toNumber (rowGet bomRow qIdx)
  if d ≠ "" ∧ ch ≠ "" ∧ 0 < bq ∧ d = parent ∧ ch = child ∧ 0 < producedQty then producedQty * bq
  else 0

/-- Demand contributed to child `c` by one plan row at one week column,
summed over every BOM data row. -/
def rowWeekDemand (idpHeaders bomHeaders : List Cell) (bomRows : List (List Cell))
    (row : List Cell) (wkIdx : ℤ) (c : String) : ℚ :=
  (bomRows.map (fun br =>
    bomEdgeContrib (bomDerivedIdx bomHeaders) (bomChildIdx bomHeaders) (bomQtyIdx bomHeaders) br
      (jsTrim (cellStrOpt (rowGet row (idpDerivedIdx idpHeaders)))) c
      (toNumber (rowGet row wkIdx)))).sum

/-- The claim's reading of the demand map: a sum over all
(plan row, week column, BOM edge) triples. -/
def demandSpecSum (idpHeaders : List Cell) (idpRows : List (List Cell)) (bomHeaders : List Cell)
    (bomRows : List (List Cell)) (selectedWeeks : List String) (c w : String) : ℚ :=
  (idpRows.map (fun row =>
    (((buildWeekCols idpHeaders selectedWeeks).filter (fun wk => wk.2 == w)).map
      (fun wk => rowWeekDemand idpHeaders bomHeaders bomRows row wk.1 c)).sum)).sum

theorem demandLookup_nil (c w : String) : demandLookup [] c w = 0 := rfl

theorem demandLookup_bump (dm : List (String × List (String × ℚ))) (c w c' w' : String) (dq : ℚ) :
    demandLookup (demandBump dm c w dq) c' w'
      = demandLookup dm c' w' + if c = c' ∧ w = w' then dq else 0 := by
  by_cases hc : c = c'
  · subst hc
    unfold demandLookup demandBump alGetD
    rw [alGet_alSet, if_pos rfl, Option.getD_some, alGet_alSet]
    by_cases hw : w = w'
    · rw [if_pos hw, Option.getD_some, qAdd_eq, if_pos (And.intro rfl hw)]
      cases hw
      rfl
    · rw [if_neg hw, if_neg (fun h => hw h.2)]
      ring
  · have hcond : ¬(c = c' ∧ w = w') := fun h => hc h.1
    unfold demandLookup demandBump alGetD
    rw [alGet_alSet, if_neg hc, if_neg hcond]
    ring

theorem demandLookup_items_fold (items : List BomItem) (dm : List (String × List (String × ℚ)))
    (w0 : String) (q : ℚ) (c w : String) :
    demandLookup (items.foldl (fun a item => demandBump a item.childPart w0 (qMul q item.quantity)) dm) c w
      = demandLookup dm c w
        + (if w0 = w then
            ((items.filter (fun it => it.childPart == c)).map (fun it => q * it.quantity)).sum
          else 0) := by
  induction items generalizing dm with
  | nil => simp
  | cons it rest ih =>
      rw [List.foldl_cons, ih, demandLookup_bump, qMul_eq]
      by_cases hw : w0 = w
      · by_cases hcc : it.childPart = c
        · have hb : (it.childPart == c) = true := beq_iff_eq.2 hcc
          simp only [if_pos hw, if_pos (And.intro hcc hw)]
          rw [List.filter_cons, if_pos hb, List.map_cons, List.sum_cons]
          ring
        · have hb : ¬(it.childPart == c) = true := by
            simp [hcc]
          have hcond : ¬(it.childPart = c ∧ w0 = w) := fun h => hcc h.1
          simp only [if_pos hw, if_neg hcond]
          rw [List.filter_cons, if_neg hb]
          ring
      · have hcond : ¬(it.childPart = c ∧ w0 = w) := fun h => hw h.2
        simp only [if_neg hw, if_neg hcond]
        ring

theorem demandLookup_weeks_fold (weekCols : List (ℤ × String)) (dm : List (String × List (String × ℚ)))
    (row : List Cell) (items : List BomItem) (c w : String) :
    demandLookup (weekCols.foldl (demandWeekStep row items) dm) c w
      = demandLookup dm c w
        + ((weekCols.filter (fun wk => wk.2 == w)).map (fun wk =>
            if 0 < toNumber (rowGet row wk.1) then
              ((items.filter (fun it => it.childPart == c)).map
                (fun it => toNumber (rowGet row wk.1) * it.quantity)).sum
            else 0)).sum := by
  induction weekCols generalizing dm with
  | nil => simp
  | cons wk rest ih =>
      rw [List.foldl_cons, ih]
      by_cases hq : toNumber (rowGet row wk.1) ≤ 0
      · have hstep : demandWeekStep row items dm wk = dm := by
          simp [demandWeekStep, hq]
        rw [hstep]
        by_cases hww : wk.2 = w
        · have hb : (wk.2 == w) = true := beq_iff_eq.2 hww
          rw [List.filter_cons, if_pos hb, List.map_cons, List.sum_cons,
            if_neg (not_lt.2 hq)]
          ring
        · have hb : ¬(wk.2 == w) = true := by simp [hww]
          rw [List.filter_cons, if_neg hb]
      · have hstep : demandWeekStep row items dm wk
            = items.foldl (fun a item =>
                demandBump a item.childPart wk.2 (qMul (toNumber (rowGet row wk.1)) item.quantity)) dm := by
          simp [demandWeekStep, hq]
        rw [hstep, demandLookup_items_fold]
        by_cases hww : wk.2 = w
        · have hb : (wk.2 == w) = true := beq_iff_eq.2 hww
          rw [List.filter_cons, if_pos hb, List.map_cons, List.sum_cons,
            if_pos hww, if_pos (not_le.1 hq)]
          ring
        · have hb : ¬(wk.2 == w) = true := by simp [hww]
          rw [List.filter_cons, if_neg hb, if_neg hww]
          ring

theorem demandLookup_rows_fold (idpDIdx : ℤ) (weekCols : List (ℤ × String))
    (bomLookup : List (String × List BomItem)) (idpRows : List (List Cell))
    (dm : List (String × List (String × ℚ))) (c w : String) :
    demandLookup (idpRows.foldl (demandRowStep idpDIdx weekCols bomLookup) dm) c w
      = demandLookup dm c w
        + (idpRows.map (fun row =>
            if jsTrim (cellStrOpt (rowGet row idpDIdx)) = "" then 0
            else ((weekCols.filter (fun wk => wk.2 == w)).map (fun wk =>
              if 0 < toNumber (rowGet row wk.1) then
                (((alGetD bomLookup (jsTrim (cellStrOpt (rowGet row idpDIdx))) []).filter
                    (fun it => it.childPart == c)).map
                  (fun it => toNumber (rowGet row wk.1) * it.quantity)).sum
              else 0)).sum)).sum := by
  induction idpRows generalizing dm with
  | nil => simp
  | cons row rest ih =>
      rw [List.foldl_cons, ih]
      by_cases hd : jsTrim (cellStrOpt (rowGet row idpDIdx)) = ""
      · have hstep : demandRowStep idpDIdx weekCols bomLookup dm row = dm := by
          simp [demandRowStep, hd]
        rw [hstep, List.map_cons, List.sum_cons, if_pos hd]
        ring
      · have hstep : demandRowStep idpDIdx weekCols bomLookup dm row
            = weekCols.foldl
                (demandWeekStep row (alGetD bomLookup (jsTrim (cellStrOpt (rowGet row idpDIdx))) [])) dm := by
          simp [demandRowStep, hd]
        rw [hstep, demandLookup_weeks_fold, List.map_cons, List.sum_cons, if_neg hd]
        ring

/-- The valid BOM edges with parent `p`, in data-row order (the list
`bomLookup.get(p) ?? []` holds after the grouping fold). -/
def validBomItemsFor (bomRows : List (List Cell)) (dIdx cIdx qIdx : ℤ) (p : String) :
    List BomItem :=
  bomRows.filterMap (fun row =>
    let d := jsTrim (cellStrOpt (rowGet row dIdx))
    let ch := jsTrim (cellStrOpt (rowGet row cIdx))
    let q := toNumber (rowGet row qIdx)
    if d ≠ "" ∧ ch ≠ "" ∧ 0 < q ∧ d = p then some ⟨ch, q⟩ else none)

theorem buildBomLookup_lookup (bomRows : List (List Cell)) (dIdx cIdx qIdx : ℤ) (p : String) :
    alGetD (buildBomLookup bomRows dIdx cIdx qIdx) p [] = validBomItemsFor bomRows dIdx cIdx qIdx p := by
  induction bomRows using List.reverseRecOn with
  | nil => simp [buildBomLookup, validBomItemsFor, alGetD, alGet]
  | append_singleton rs r ih =>
      have hvalid : validBomItemsFor (rs ++ [r]) dIdx cIdx qIdx p
          = validBomItemsFor rs dIdx cIdx qIdx p
            ++ (if jsTrim (cellStrOpt (rowGet r dIdx)) ≠ "" ∧ jsTrim (cellStrOpt (rowGet r cIdx)) ≠ ""
                  ∧ 0 < toNumber (rowGet r qIdx) ∧ jsTrim (cellStrOpt (rowGet r dIdx)) = p
                then [⟨jsTrim (cellStrOpt (rowGet r cIdx)), toNumber (rowGet r qIdx)⟩] else []) := by
        simp only [validBomItemsFor, List.filterMap_append]
        congr 1
        by_cases hcond : jsTrim (cellStrOpt (rowGet r dIdx)) ≠ "" ∧ jsTrim (cellStrOpt (rowGet r cIdx)) ≠ ""
            ∧ 0 < toNumber (rowGet r qIdx) ∧ jsTrim (cellStrOpt (rowGet r dIdx)) = p
        · rw [List.filterMap_cons, List.filterMap_nil]
          rw [if_pos hcond]
          rw [if_pos hcond]
        · rw [List.filterMap_cons, List.filterMap_nil]
          rw [if_neg hcond]
          rw [if_neg hcond]
      have hfold : buildBomLookup (rs ++ [r]) dIdx cIdx qIdx
          = (if jsTrim (cellStrOpt (rowGet r dIdx)) = "" ∨ jsTrim (cellStrOpt (rowGet r cIdx)) = ""
                ∨ toNumber (rowGet r qIdx) ≤ 0 then buildBomLookup rs dIdx cIdx qIdx
            else alSet (buildBomLookup rs dIdx cIdx qIdx) (jsTrim (cellStrOpt (rowGet r dIdx)))
                (alGetD (buildBomLookup rs dIdx cIdx qIdx) (jsTrim (cellStrOpt (rowGet r dIdx))) []
                  ++ [⟨jsTrim (cellStrOpt (rowGet r cIdx)), toNumber (rowGet r qIdx)⟩])) := by
        simp [buildBomLookup, List.foldl_append]
      rw [hvalid, hfold]
      by_cases hskip : jsTrim (cellStrOpt (rowGet r dIdx)) = "" ∨ jsTrim (cellStrOpt (rowGet r cIdx)) = ""
          ∨ toNumber (rowGet r qIdx) ≤ 0
      · rw [if_pos hskip, ih]
        have hcond : ¬(jsTrim (cellStrOpt (rowGet r dIdx)) ≠ "" ∧ jsTrim (cellStrOpt (rowGet r cIdx)) ≠ ""
            ∧ 0 < toNumber (rowGet r qIdx) ∧ jsTrim (cellStrOpt (rowGet r dIdx)) = p) := by
          intro hcon
          rcases hskip with h | h | h
          · exact hcon.1 h
          · exact hcon.2.1 h
          · exact absurd hcon.2.2.1 (not_lt.2 h)
        rw [if_neg hcond, List.append_nil]
      · push_neg at hskip
        rw [if_neg (by push_neg; exact hskip)]
        by_cases hp : jsTrim (cellStrOpt (rowGet r dIdx)) = p
        · have hq : 0 < toNumber (rowGet r qIdx) := hskip.2.2
          rw [if_pos ⟨hskip.1, hskip.2.1, hq, hp⟩]
          unfold alGetD
          rw [hp, alGet_alSet, if_pos rfl, Option.getD_some, ← ih]
          rfl
        · have hcond : ¬(jsTrim (cellStrOpt (rowGet r dIdx)) ≠ "" ∧ jsTrim (cellStrOpt (rowGet r cIdx)) ≠ ""
              ∧ 0 < toNumber (rowGet r qIdx) ∧ jsTrim (cellStrOpt (rowGet r dIdx)) = p) :=
            fun hcon => hp hcon.2.2.2
          rw [if_neg hcond, List.append_nil]
          unfold alGetD
          rw [alGet_alSet, if_neg hp, ← ih]
          rfl

theorem validItems_sum (bomRows : List (List Cell)) (dIdx cIdx qIdx : ℤ) (p c : String) (q : ℚ)
    (hq : 0 < q) :
    (((validBomItemsFor bomRows dIdx cIdx qIdx p).filter (fun it => it.childPart == c)).map
        (fun it => q * it.quantity)).sum
      = (bomRows.map (fun br => bomEdgeContrib dIdx cIdx qIdx br p c q)).sum := by
  induction bomRows with
  | nil => simp [validBomItemsFor]
  | cons br rest ih =>
      have hstep : validBomItemsFor (br :: rest) dIdx cIdx qIdx p
          = (if jsTrim (cellStrOpt (rowGet br dIdx)) ≠ "" ∧ jsTrim (cellStrOpt (rowGet br cIdx)) ≠ ""
                ∧ 0 < toNumber (rowGet br qIdx) ∧ jsTrim (cellStrOpt (rowGet br dIdx)) = p
              then [(⟨jsTrim (cellStrOpt (rowGet br cIdx)), toNumber (rowGet br qIdx)⟩ : BomItem)] else [])
            ++ validBomItemsFor rest dIdx cIdx qIdx p := by
        rw [validBomItemsFor, List.filterMap_cons]
        by_cases hcond : jsTrim (cellStrOpt (rowGet br dIdx)) ≠ "" ∧ jsTrim (cellStrOpt (rowGet br cIdx)) ≠ ""
            ∧ 0 < toNumber (rowGet br qIdx) ∧ jsTrim (cellStrOpt (rowGet br dIdx)) = p
        · rw [if_pos hcond, if_pos hcond]
          rfl
        · rw [if_neg hcond, if_neg hcond]
          rfl
      have hsingle : ((List.filter (fun it => it.childPart == c)
            (if jsTrim (cellStrOpt (rowGet br dIdx)) ≠ "" ∧ jsTrim (cellStrOpt (rowGet br cIdx)) ≠ ""
                ∧ 0 < toNumber (rowGet br qIdx) ∧ jsTrim (cellStrOpt (rowGet br dIdx)) = p
              then [(⟨jsTrim (cellStrOpt (rowGet br cIdx)), toNumber (rowGet br qIdx)⟩ : BomItem)] else [])).map
          (fun it => q * it.quantity)).sum = bomEdgeContrib dIdx cIdx qIdx br p c q := by
        by_cases hcond : jsTrim (cellStrOpt (rowGet br dIdx)) ≠ "" ∧ jsTrim (cellStrOpt (rowGet br cIdx)) ≠ ""
            ∧ 0 < toNumber (rowGet br qIdx) ∧ jsTrim (cellStrOpt (rowGet br dIdx)) = p
        · rw [if_pos hcond]
          by_cases hc : jsTrim (cellStrOpt (rowGet br cIdx)) = c
          · have hb : ((⟨jsTrim (cellStrOpt (rowGet br cIdx)), toNumber (rowGet br qIdx)⟩ : BomItem).childPart == c) = true :=
              beq_iff_eq.2 hc
            rw [List.filter_cons, if_pos hb]
            unfold bomEdgeContrib
            rw [if_pos ⟨hcond.1, hcond.2.1, hcond.2.2.1, hcond.2.2.2, hc, hq⟩]
            simp
          · have hb : ¬((⟨jsTrim (cellStrOpt (rowGet br cIdx)), toNumber (rowGet br qIdx)⟩ : BomItem).childPart == c) = true := by
              simp [hc]
            rw [List.filter_cons, if_neg hb]
            unfold bomEdgeContrib
            rw [if_neg (fun hcon => hc hcon.2.2.2.2.1)]
            simp
        · rw [if_neg hcond]
          unfold bomEdgeContrib
          rw [if_neg (fun hcon => hcond ⟨hcon.1, hcon.2.1, hcon.2.2.1, hcon.2.2.2.1⟩)]
          simp
      rw [hstep, List.filter_append, List.map_append, List.sum_append, hsingle,
        List.map_cons, List.sum_cons, ih]

theorem rowWeekDemand_nonpos (idpHeaders bomHeaders : List Cell) (bomRows : List (List Cell))
    (row : List Cell) (wkIdx : ℤ) (c : String) (hq : ¬ 0 < toNumber (rowGet row wkIdx)) :
    rowWeekDemand idpHeaders bomHeaders bomRows row wkIdx c = 0 := by
  unfold rowWeekDemand
  apply List.sum_eq_zero
  intro x hx
  rcases List.mem_map.1 hx with ⟨br, _, rfl⟩
  unfold bomEdgeContrib
  rw [if_neg (fun hcon => hq hcon.2.2.2.2.2)]

theorem rowWeekDemand_blank (idpHeaders bomHeaders : List Cell) (bomRows : List (List Cell))
    (row : List Cell) (wkIdx : ℤ) (c : String)
    (hd : jsTrim (cellStrOpt (rowGet row (idpDerivedIdx idpHeaders))) = "") :
    rowWeekDemand idpHeaders bomHeaders bomRows row wkIdx c = 0 := by
  unfold rowWeekDemand
  apply List.sum_eq_zero
  intro x hx
  rcases List.mem_map.1 hx with ⟨br, _, rfl⟩
  unfold bomEdgeContrib
  rw [if_neg (fun hcon => hcon.1 (hcon.2.2.2.1.trans hd))]

theorem sum_map_scale {α : Type} (l : List α) (f g : α → ℚ) (k : ℚ)
    (h : ∀ x ∈ l, f x = k * g x) : (l.map f).sum = k * (l.map g).sum := by
  induction l with
  | nil => simp
  | cons a rest ih =>
      rw [List.map_cons, List.sum_cons, List.map_cons, List.sum_cons,
        h a (List.mem_cons_self a rest), ih (fun x hx => h x (List.mem_cons_of_mem a hx))]
      ring

theorem bomEdgeContrib_scale (dIdx cIdx qIdx : ℤ) (br : List Cell) (p c : String) (k q0 : ℚ)
    (hk : 0 < k) :
    bomEdgeContrib dIdx cIdx qIdx br p c (k * q0) = k * bomEdgeContrib dIdx cIdx qIdx br p c q0 := by
  have hiff : 0 < k * q0 ↔ 0 < q0 := by
    constructor
    · intro h
      nlinarith
    · intro h
      exact mul_pos hk h
  unfold bomEdgeContrib
  by_cases hcond : jsTrim (cellStrOpt (rowGet br dIdx)) ≠ "" ∧ jsTrim (cellStrOpt (rowGet br cIdx)) ≠ ""
      ∧ 0 < toNumber (rowGet br qIdx) ∧ jsTrim (cellStrOpt (rowGet br dIdx)) = p
      ∧ jsTrim (cellStrOpt (rowGet br cIdx)) = c
  · by_cases h0 : 0 < q0
    · rw [if_pos ⟨hcond.1, hcond.2.1, hcond.2.2.1, hcond.2.2.2.1, hcond.2.2.2.2, hiff.2 h0⟩,
        if_pos ⟨hcond.1, hcond.2.1, hcond.2.2.1, hcond.2.2.2.1, hcond.2.2.2.2, h0⟩]
      ring
    · rw [if_neg (fun hcon => h0 (hiff.1 hcon.2.2.2.2.2)),
        if_neg (fun hcon => h0 hcon.2.2.2.2.2)]
      ring
  · have hnc : ∀ q1 : ℚ, ¬(jsTrim (cellStrOpt (rowGet br dIdx)) ≠ "" ∧ jsTrim (cellStrOpt (rowGet br cIdx)) ≠ ""
        ∧ 0 < toNumber (rowGet br qIdx) ∧ jsTrim (cellStrOpt (rowGet br dIdx)) = p
        ∧ jsTrim (cellStrOpt (rowGet br cIdx)) = c ∧ 0 < q1) :=
      fun q1 hcon => hcond ⟨hcon.1, hcon.2.1, hcon.2.2.1, hcon.2.2.2.1, hcon.2.2.2.2.1⟩
    rw [if_neg (hnc _), if_neg (hnc _)]
    ring

/-- C3: the gross demand recorded for child `c` in period `w` equals
the sum over all (production-plan row, week column, BOM data row)
combinations of `producedQty × quantityPerParentUnit`, where BOM rows
with a blank parent, blank child or non-positive quantity and plan
cells with non-positive produced quantity contribute nothing; and
multiplying every plan row's produced quantities by a positive `k`
(keeping the parent cells) multiplies every recorded demand by `k`. -/
theorem c3_bom_explosion (idpHeaders : List Cell) (idpRows : List (List Cell))
    (bomHeaders : List Cell) (bomRows : List (List Cell)) (selectedWeeks : List String)
    (c w : String) :
    demandLookup (buildProductionDemandMap idpHeaders idpRows bomHeaders bomRows selectedWeeks) c w
      = demandSpecSum idpHeaders idpRows bomHeaders bomRows selectedWeeks c w
    ∧ ∀ (k : ℚ) (idpRows' : List (List Cell)), 0 < k →
        List.Forall₂ (fun r r' =>
          jsTrim (cellStrOpt (rowGet r' (idpDerivedIdx idpHeaders)))
            = jsTrim (cellStrOpt (rowGet r (idpDerivedIdx idpHeaders)))
          ∧ ∀ wk ∈ buildWeekCols idpHeaders selectedWeeks,
              toNumber (rowGet r' wk.1) = k * toNumber (rowGet r wk.1)) idpRows idpRows' →
        demandLookup (buildProductionDemandMap idpHeaders idpRows' bomHeaders bomRows selectedWeeks) c w
          = k * demandLookup (buildProductionDemandMap idpHeaders idpRows bomHeaders bomRows selectedWeeks) c w := by
  have hpart1 : ∀ rows : List (List Cell),
      demandLookup (buildProductionDemandMap idpHeaders rows bomHeaders bomRows selectedWeeks) c w
        = demandSpecSum idpHeaders rows bomHeaders bomRows selectedWeeks c w := by
    intro rows
    unfold buildProductionDemandMap
    rw [demandLookup_rows_fold, demandLookup_nil, zero_add]
    unfold demandSpecSum
    refine congrArg List.sum (List.map_congr_left ?_)
    intro row _
    by_cases hd : jsTrim (cellStrOpt (rowGet row (idpDerivedIdx idpHeaders))) = ""
    · rw [if_pos hd]
      symm
      apply List.sum_eq_zero
      intro x hx
      rcases List.mem_map.1 hx with ⟨wk, _, rfl⟩
      exact rowWeekDemand_blank idpHeaders bomHeaders bomRows row wk.1 c hd
    · rw [if_neg hd]
      refine congrArg List.sum (List.map_congr_left ?_)
      intro wk _
      by_cases hq : 0 < toNumber (rowGet row wk.1)
      · rw [if_pos hq, buildBomLookup_lookup, validItems_sum _ _ _ _ _ _ _ hq]
        rfl
      · rw [if_neg hq, rowWeekDemand_nonpos idpHeaders bomHeaders bomRows row wk.1 c hq]
  refine ⟨hpart1 idpRows, ?_⟩
  intro k idpRows' hk hrel
  rw [hpart1 idpRows', hpart1 idpRows]
  unfold demandSpecSum
  induction hrel with
  | nil => simp
  | @cons r r' l₁ l₂ hpair hrest ih =>
      rw [List.map_cons, List.sum_cons, List.map_cons, List.sum_cons, ih]
      have hhead : (((buildWeekCols idpHeaders selectedWeeks).filter (fun wk => wk.2 == w)).map
            (fun wk => rowWeekDemand idpHeaders bomHeaders bomRows r' wk.1 c)).sum
          = k * (((buildWeekCols idpHeaders selectedWeeks).filter (fun wk => wk.2 == w)).map
            (fun wk => rowWeekDemand idpHeaders bomHeaders bomRows r wk.1 c)).sum := by
        apply sum_map_scale
        intro wk hwk
        have hwkmem := List.mem_of_mem_filter hwk
        unfold rowWeekDemand
        rw [hpair.1]
        apply sum_map_scale
        intro br _
        rw [hpair.2 wk hwkmem]
        exact bomEdgeContrib_scale _ _ _ br _ c k _ hk
      rw [hhead]
      ring

/-- Sample production-plan header used by the linearity check. -/
def sampleIdpHeaders : List Cell := [Cell.str "Derived Material", Cell.str "01.2024"]

/-- Sample BOM header used by the linearity check. -/
def sampleBomHeaders : List Cell :=
  [Cell.str "Child Part", Cell.str "Derived Material", Cell.str "Quantity", Cell.str "UOM"]

/-- Sample BOM data row: `M1` goes into `P1` twice per unit. -/
def sampleBomRows : List (List Cell) :=
  [[Cell.str "M1", Cell.str "P1", Cell.str "2", Cell.str "EA"]]

theorem c3_bom_explosion_witness :
    demandLookup (buildProductionDemandMap sampleIdpHeaders [[Cell.str "P1", Cell.str "20"]]
        sampleBomHeaders sampleBomRows ["01.2024"]) "M1" "01.2024"
      = 2 * demandLookup (buildProductionDemandMap sampleIdpHeaders [[Cell.str "P1", Cell.str "10"]]
        sampleBomHeaders sampleBomRows ["01.2024"]) "M1" "01.2024" := by
  apply (c3_bom_explosion sampleIdpHeaders [[Cell.str "P1", Cell.str "10"]] sampleBomHeaders
      sampleBomRows ["01.2024"] "M1" "01.2024").2 2 [[Cell.str "P1", Cell.str "20"]] (by norm_num)
  refine List.Forall₂.cons ⟨by decide, ?_⟩ List.Forall₂.nil
  intro wk hwk
  have hlist : buildWeekCols sampleIdpHeaders ["01.2024"] = [((1 : ℤ), "01.2024")] := by decide
  rw [hlist] at hwk
  have hwk' : wk = ((1 : ℤ), "01.2024") := by simpa using hwk
  subst hwk'
  have h2 : toNumber (rowGet [Cell.str "P1", Cell.str "20"] 1) = 20 := by decide
  have h1 : toNumber (rowGet [Cell.str "P1", Cell.str "10"] 1) = 10 := by decide
  rw [h2, h1]
  norm_num

/-! ### C10: output period keys stay in the selected window -/

theorem mrpWalk_keys (mm : MmInfo) (sel : List String) (lead : ℚ) (wp : Option ParsedExcel)
    (entries : List (String × ℚ)) (acc : WalkAcc) (k : String) :
    (k ∈ (mrpWalk mm sel lead wp acc entries).weeklyDemand.map Prod.fst →
        k ∈ acc.weeklyDemand.map Prod.fst ∨ k ∈ entries.map Prod.fst)
    ∧ (k ∈ (mrpWalk mm sel lead wp acc entries).weeklyMrpQty.map Prod.fst →
        k ∈ acc.weeklyMrpQty.map Prod.fst ∨ k ∈ entries.map Prod.fst)
    ∧ (k ∈ (mrpWalk mm sel lead wp acc entries).weeklyPoDate.map Prod.fst →
        k ∈ acc.weeklyPoDate.map Prod.fst ∨ k ∈ entries.map Prod.fst) := by
  induction entries generalizing acc with
  | nil => simp [mrpWalk]
  | cons e rest ih =>
      obtain ⟨week, qty⟩ := e
      refine ⟨?_, ?_, ?_⟩
      · intro hk
        rcases ((ih _).1 hk) with hk' | hk'
        · rcases alSet_fst_mem hk' with rfl | hk''
          · exact Or.inr (by simp)
          · exact Or.inl hk''
        · exact Or.inr (by simpa using Or.inr hk')
      · intro hk
        rcases ((ih _).2.1 hk) with hk' | hk'
        · rcases alSet_fst_mem hk' with rfl | hk''
          · exact Or.inr (by simp)
          · exact Or.inl hk''
        · exact Or.inr (by simpa using Or.inr hk')
      · intro hk
        rcases ((ih _).2.2 hk) with hk' | hk'
        · rcases alSet_fst_mem hk' with rfl | hk''
          · exact Or.inr (by simp)
          · exact Or.inl hk''
        · exact Or.inr (by simpa using Or.inr hk')

theorem mrpWalk_totalDemand (mm : MmInfo) (sel : List String) (lead : ℚ) (wp : Option ParsedExcel)
    (entries : List (String × ℚ)) (acc : WalkAcc) :
    (mrpWalk mm sel lead wp acc entries).totalDemand
      = acc.totalDemand + (entries.map (fun e => if sel.contains e.1 then e.2 else 0)).sum := by
  induction entries generalizing acc with
  | nil => simp [mrpWalk]
  | cons e rest ih =>
      obtain ⟨week, qty⟩ := e
      rw [mrpWalk, ih]
      dsimp
      rw [qAdd_eq]
      ring

theorem mrpWalk_weeklyDemand (mm : MmInfo) (sel : List String) (lead : ℚ) (wp : Option ParsedExcel)
    (entries : List (String × ℚ)) (acc : WalkAcc)
    (hnodup : (entries.map Prod.fst).Nodup)
    (hdisj : ∀ k ∈ entries.map Prod.fst, k ∉ acc.weeklyDemand.map Prod.fst) :
    (mrpWalk mm sel lead wp acc entries).weeklyDemand = acc.weeklyDemand ++ entries := by
  induction entries generalizing acc with
  | nil => simp [mrpWalk]
  | cons e rest ih =>
      obtain ⟨week, qty⟩ := e
      simp only [List.map_cons, List.nodup_cons] at hnodup
      have hw : week ∉ acc.weeklyDemand.map Prod.fst := hdisj week (by simp)
      rw [mrpWalk]
      have hset : alSet acc.weeklyDemand week qty = acc.weeklyDemand ++ [(week, qty)] :=
        alSet_of_not_mem hw
      have hrec := ih
        { weeklyDemand := alSet acc.weeklyDemand week qty
          weeklyMrpQty := alSet acc.weeklyMrpQty week (periodRequiredQty mm acc.remainingExcess qty)
          weeklyPoDate := alSet acc.weeklyPoDate week
            (calculatePoDate week lead (periodRequiredQty mm acc.remainingExcess qty) wp)
          totalDemand := qAdd acc.totalDemand (if sel.contains week then qty else 0)
          remainingExcess := periodNextExcess acc.remainingExcess qty }
        hnodup.2
        (by
          intro k hk
          dsimp only
          rw [hset, List.map_append]
          intro hmem
          rcases List.mem_append.1 hmem with hmem | hmem
          · exact hdisj k (by simp [hk]) hmem
          · have hkw : k = week := by simpa using hmem
            exact hnodup.1 (hkw ▸ hk))
      rw [hrec]
      dsimp only
      rw [hset]
      simp

/-- Per-material invariant of the demand map: inner period lists have
distinct keys, all drawn from the selected window. -/
def demandMapInv (sel : List String) (dm : List (String × List (String × ℚ))) : Prop :=
  ∀ p ∈ dm, (p.2.map Prod.fst).Nodup ∧ ∀ e ∈ p.2, e.1 ∈ sel

theorem demandMapInv_bump {sel : List String} {dm : List (String × List (String × ℚ))}
    (hinv : demandMapInv sel dm) (c w0 : String) (dq : ℚ) (hw : w0 ∈ sel) :
    demandMapInv sel (demandBump dm c w0 dq) := by
  intro p hp
  unfold demandBump at hp
  rcases mem_alSet hp with rfl | hp'
  · constructor
    · cases halGet : alGet dm c with
      | none =>
          simp only [alGetD, halGet, Option.getD_none]
          simp [alSet]
      | some wmv =>
          simp only [alGetD, halGet, Option.getD_some]
          exact alSet_nodup_fst (hinv (c, wmv) (alGet_mem halGet)).1
    · intro e he
      cases halGet : alGet dm c with
      | none =>
          rw [alGetD, halGet] at he
          simp only [Option.getD_none] at he
          rcases mem_alSet he with rfl | he'
          · exact hw
          · cases he'
      | some wmv =>
          rw [alGetD, halGet] at he
          simp only [Option.getD_some] at he
          rcases mem_alSet he with rfl | he'
          · exact hw
          · exact (hinv (c, wmv) (alGet_mem halGet)).2 e he'
  · exact hinv p hp'

theorem demandMapInv_items_fold {sel : List String} {dm : List (String × List (String × ℚ))}
    (hinv : demandMapInv sel dm) (items : List BomItem) (w0 : String) (q : ℚ) (hw : w0 ∈ sel) :
    demandMapInv sel (items.foldl (fun a item => demandBump a item.childPart w0 (qMul q item.quantity)) dm) := by
  induction items generalizing dm with
  | nil => exact hinv
  | cons it rest ih =>
      rw [List.foldl_cons]
      exact ih (demandMapInv_bump hinv it.childPart w0 (qMul q it.quantity) hw)

theorem demandMapInv_week_fold {sel : List String} {dm : List (String × List (String × ℚ))}
    (hinv : demandMapInv sel dm) (weekCols : List (ℤ × String)) (row : List Cell)
    (items : List BomItem) (hws : ∀ wk ∈ weekCols, wk.2 ∈ sel) :
    demandMapInv sel (weekCols.foldl (demandWeekStep row items) dm) := by
  induction weekCols generalizing dm with
  | nil => exact hinv
  | cons wk rest ih =>
      rw [List.foldl_cons]
      refine ih ?_ (fun wk' hwk' => hws wk' (List.mem_cons_of_mem _ hwk'))
      simp only [demandWeekStep]
      split
      · exact hinv
      · exact demandMapInv_items_fold hinv items wk.2 _ (hws wk (by simp))

theorem buildWeekCols_week_mem (idpHeaders : List Cell) (sel : List String) (wk : ℤ × String)
    (h : wk ∈ buildWeekCols idpHeaders sel) : wk.2 ∈ sel := by
  unfold buildWeekCols at h
  rcases List.mem_filterMap.1 h with ⟨p, _, heq⟩
  by_cases hc : jsTrim (cellStr p.2) ≠ "" ∧ isPeriodStr (jsTrim (cellStr p.2)) = true
      ∧ sel.contains (jsTrim (cellStr p.2)) = true
  · rw [if_pos hc] at heq
    have hwk : wk = ((p.1 : ℤ), jsTrim (cellStr p.2)) := by
      exact (Option.some.injEq _ _ ▸ heq).symm
    rw [hwk]
    exact List.mem_of_elem_eq_true hc.2.2
  · rw [if_neg hc] at heq
    cases heq

theorem demandMapInv_rows_fold {sel : List String} (dIdx : ℤ) (weekCols : List (ℤ × String))
    (bomLookup : List (String × List BomItem)) (hws : ∀ wk ∈ weekCols, wk.2 ∈ sel)
    (rows : List (List Cell)) :
    ∀ dm, demandMapInv sel dm →
      demandMapInv sel (rows.foldl (demandRowStep dIdx weekCols bomLookup) dm) := by
  induction rows with
  | nil => exact fun dm hdm => hdm
  | cons r rest ih =>
      intro dm hdm
      rw [List.foldl_cons]
      apply ih
      simp only [demandRowStep]
      split
      · exact hdm
      · exact demandMapInv_week_fold hdm _ r _ hws

theorem buildProductionDemandMap_inv (idpHeaders : List Cell) (idpRows : List (List Cell))
    (bomHeaders : List Cell) (bomRows : List (List Cell)) (sel : List String) :
    demandMapInv sel (buildProductionDemandMap idpHeaders idpRows bomHeaders bomRows sel) := by
  unfold buildProductionDemandMap
  exact demandMapInv_rows_fold (idpDerivedIdx idpHeaders) (buildWeekCols idpHeaders sel)
    (buildBomLookup bomRows (bomDerivedIdx bomHeaders) (bomChildIdx bomHeaders) (bomQtyIdx bomHeaders))
    (fun wk hwk => buildWeekCols_week_mem idpHeaders sel wk hwk) idpRows []
    (fun p hp => absurd hp (List.not_mem_nil p))

theorem walk_from_demand_props (mm : MmInfo) (sel : List String) (lead : ℚ)
    (wp : Option ParsedExcel) (idpHeaders bomHeaders : List Cell)
    (idpRows bomRows : List (List Cell)) (material : String) (excess : ℚ) :
    (∀ k, (k ∈ (mrpWalk mm sel lead wp ⟨[], [], [], 0, excess⟩
          (alGetD (buildProductionDemandMap idpHeaders idpRows bomHeaders bomRows sel) material [])).weeklyDemand.map Prod.fst
        ∨ k ∈ (mrpWalk mm sel lead wp ⟨[], [], [], 0, excess⟩
          (alGetD (buildProductionDemandMap idpHeaders idpRows bomHeaders bomRows sel) material [])).weeklyMrpQty.map Prod.fst
        ∨ k ∈ (mrpWalk mm sel lead wp ⟨[], [], [], 0, excess⟩
          (alGetD (buildProductionDemandMap idpHeaders idpRows bomHeaders bomRows sel) material [])).weeklyPoDate.map Prod.fst) →
      k ∈ sel)
    ∧ (mrpWalk mm sel lead wp ⟨[], [], [], 0, excess⟩
          (alGetD (buildProductionDemandMap idpHeaders idpRows bomHeaders bomRows sel) material [])).totalDemand
        = ((mrpWalk mm sel lead wp ⟨[], [], [], 0, excess⟩
          (alGetD (buildProductionDemandMap idpHeaders idpRows bomHeaders bomRows sel) material [])).weeklyDemand.map Prod.snd).sum := by
  have hinv := buildProductionDemandMap_inv idpHeaders idpRows bomHeaders bomRows sel
  have hent : (∀ e ∈ alGetD (buildProductionDemandMap idpHeaders idpRows bomHeaders bomRows sel) material [],
        e.1 ∈ sel)
      ∧ ((alGetD (buildProductionDemandMap idpHeaders idpRows bomHeaders bomRows sel) material []).map Prod.fst).Nodup := by
    cases halg : alGet (buildProductionDemandMap idpHeaders idpRows bomHeaders bomRows sel) material with
    | none =>
        rw [alGetD, halg]
        simp
    | some wm =>
        rw [alGetD, halg]
        simp only [Option.getD_some]
        have hp := hinv (material, wm) (alGet_mem halg)
        exact ⟨hp.2, hp.1⟩
  constructor
  · intro k hk
    have hkeys := mrpWalk_keys mm sel lead wp
      (alGetD (buildProductionDemandMap idpHeaders idpRows bomHeaders bomRows sel) material [])
      ⟨[], [], [], 0, excess⟩ k
    have hkm : k ∈ (alGetD (buildProductionDemandMap idpHeaders idpRows bomHeaders bomRows sel) material []).map Prod.fst := by
      rcases hk with hk | hk | hk
      · rcases hkeys.1 hk with hk' | hk'
        · simp at hk'
        · exact hk'
      · rcases hkeys.2.1 hk with hk' | hk'
        · simp at hk'
        · exact hk'
      · rcases hkeys.2.2 hk with hk' | hk'
        · simp at hk'
        · exact hk'
    rcases List.mem_map.1 hkm with ⟨e, he, rfl⟩
    exact hent.1 e he
  · rw [mrpWalk_totalDemand,
      mrpWalk_weeklyDemand mm sel lead wp _ _ hent.2 (by intro k _ hk; simp at hk)]
    simp only [List.nil_append]
    have : ∀ e ∈ alGetD (buildProductionDemandMap idpHeaders idpRows bomHeaders bomRows sel) material [],
        (if sel.contains e.1 then e.2 else 0) = e.2 := by
      intro e he
      rw [if_pos (List.elem_eq_true_of_mem (hent.1 e he))]
    calc (⟨[], [], [], 0, excess⟩ : WalkAcc).totalDemand
          + ((alGetD (buildProductionDemandMap idpHeaders idpRows bomHeaders bomRows sel) material []).map
              (fun e => if sel.contains e.1 then e.2 else 0)).sum
        = ((alGetD (buildProductionDemandMap idpHeaders idpRows bomHeaders bomRows sel) material []).map
              (fun e => if sel.contains e.1 then e.2 else 0)).sum := by
          dsimp
          ring
      _ = ((alGetD (buildProductionDemandMap idpHeaders idpRows bomHeaders bomRows sel) material []).map Prod.snd).sum := by
          exact congrArg List.sum (List.map_congr_left this)

theorem selWindow_mem_props (y : String) (sw ew : ℚ) (allW : List String) (k : String)
    (hk : k ∈ (allW.filter (yearFilter y)).filter (selectedWeekFilter sw ew)) :
    (splitOnChar '.' k).get? 1 = some y
    ∧ ∃ n : ℚ, ((splitOnChar '.' k).get? 0).bind jsNumber = some n ∧ sw ≤ n ∧ n ≤ ew := by
  have h2 := List.mem_filter.1 hk
  have h1 := List.mem_filter.1 h2.1
  constructor
  · have hy := h1.2
    unfold yearFilter at hy
    exact eq_of_beq hy
  · have hw := h2.2
    unfold selectedWeekFilter at hw
    cases hs0 : (splitOnChar '.' k).get? 0 with
    | none =>
        rw [hs0] at hw
        cases hw
    | some s0 =>
        rw [hs0] at hw
        dsimp only at hw
        cases hn : jsNumber s0 with
        | none =>
            rw [hn] at hw
            cases hw
        | some n =>
            rw [hn] at hw
            have hand := (Bool.and_eq_true _ _ ▸ hw : decide (sw ≤ n) = true ∧ decide (n ≤ ew) = true)
            refine ⟨n, ?_, of_decide_eq_true hand.1, of_decide_eq_true hand.2⟩
            simp [hn]

/-- **C10.** Whenever `calculateMrpDataInternal` succeeds, every period key
appearing in an output row's `weeklyDemand`, `weeklyMrpQty` or `weeklyPoDate`
lies in the selected window — the part after the dot equals the selected year
and the part before the dot parses to a week number in `[startWeek, endWeek]` —
and each row's `totalDemand` equals the sum of the values of its
`weeklyDemand` map. -/
theorem c10_window_and_total (inputs : MrpInputs) (y : String) (sw ew : ℚ)
    (out : MrpOutput) (hout : calculateMrpDataInternal inputs y sw ew = Except.ok out) :
    ∀ row ∈ out.mrpData,
      (∀ k, (k ∈ row.weeklyDemand.map Prod.fst ∨ k ∈ row.weeklyMrpQty.map Prod.fst
              ∨ k ∈ row.weeklyPoDate.map Prod.fst) →
        (splitOnChar '.' k).get? 1 = some y
        ∧ ∃ n : ℚ, ((splitOnChar '.' k).get? 0).bind jsNumber = some n ∧ sw ≤ n ∧ n ≤ ew)
      ∧ row.totalDemand = (row.weeklyDemand.map Prod.snd).sum := by
  unfold calculateMrpDataInternal at hout
  split at hout
  · cases hout
  · split at hout
    · cases hout
    · split at hout
      · cases hout
      · dsimp only at hout
        split at hout
        · cases hout
        · rw [Except.ok.injEq] at hout
          subst hout
          intro row hrow
          dsimp only at hrow
          rcases List.mem_map.1 hrow with ⟨material, hmat, rfl⟩
          dsimp only
          have hprops := walk_from_demand_props
            ((alGet (buildMaterialMasterMap
                (((inputs.materialMaster.getD ⟨"Sheet1", []⟩).jsonData.get? 0).getD [])
                ((inputs.materialMaster.getD ⟨"Sheet1", []⟩).jsonData.drop 1)) material).getD ⟨0, 0, 0, 0, 0⟩)
            ((((allWeeksOf (((inputs.idp.getD ⟨"Sheet1", []⟩).jsonData.get? 0).getD [])).filter
                (yearFilter y)).filter (selectedWeekFilter sw ew)))
            ((alGet (buildSupplierDetailsMap
                (((inputs.supplierDetails.getD ⟨"Sheet1", []⟩).jsonData.get? 0).getD [])
                ((inputs.supplierDetails.getD ⟨"Sheet1", []⟩).jsonData.drop 1)) material).getD
                ⟨"", 0, 0, 0⟩).totalLeadTime
            inputs.weekPlan
            (((inputs.idp.getD ⟨"Sheet1", []⟩).jsonData.get? 0).getD [])
            (((inputs.bom.getD ⟨"Sheet1", []⟩).jsonData.get?
                (findHeaderRowIndex (inputs.bom.getD ⟨"Sheet1", []⟩).jsonData
                  [rowHasNormalized "child", rowHasNormalized "derived"] 10)).getD [])
            ((inputs.idp.getD ⟨"Sheet1", []⟩).jsonData.drop 1)
            ((inputs.bom.getD ⟨"Sheet1", []⟩).jsonData.drop
                (findHeaderRowIndex (inputs.bom.getD ⟨"Sheet1", []⟩).jsonData
                  [rowHasNormalized "child", rowHasNormalized "derived"] 10 + 1))
            material
            (qAdd ((alGet (buildMaterialMasterMap
                (((inputs.materialMaster.getD ⟨"Sheet1", []⟩).jsonData.get? 0).getD [])
                ((inputs.materialMaster.getD ⟨"Sheet1", []⟩).jsonData.drop 1)) material).getD
                ⟨0, 0, 0, 0, 0⟩).instock
              ((alGet (buildMaterialMasterMap
                (((inputs.materialMaster.getD ⟨"Sheet1", []⟩).jsonData.get? 0).getD [])
                ((inputs.materialMaster.getD ⟨"Sheet1", []⟩).jsonData.drop 1)) material).getD
                ⟨0, 0, 0, 0, 0⟩).pendingPo)
          refine ⟨fun k hk => ?_, hprops.2⟩
          exact selWindow_mem_props y sw ew
            (allWeeksOf (((inputs.idp.getD ⟨"Sheet1", []⟩).jsonData.get? 0).getD []))
            k (hprops.1 k hk)

/-- A one-material end-to-end input set: one BOM edge `P1 → M1` with
quantity 2, a production plan giving 10 units of `P1` in period
`01.2024`, zero stock, and a supplier with lead time `1 + 2`. -/
def sampleBom : ParsedExcel :=
  ⟨"BOM", [[Cell.str "Child Part", Cell.str "Derived Material", Cell.str "Quantity", Cell.str "UOM"],
           [Cell.str "M1", Cell.str "P1", Cell.str "2", Cell.str "EA"]]⟩

/-- Material-master sheet for the end-to-end sample. -/
def sampleMm : ParsedExcel :=
  ⟨"MM", [[Cell.str "Child Part", Cell.str "MPQ", Cell.str "MOQ", Cell.str "Reorder", Cell.str "Instock", Cell.str "Pending PO"],
          [Cell.str "M1", Cell.str "0", Cell.str "0", Cell.str "0", Cell.str "0", Cell.str "0"]]⟩

/-- Production-plan sheet for the end-to-end sample. -/
def sampleIdp : ParsedExcel :=
  ⟨"IDP", [[Cell.str "Derived Material", Cell.str "01.2024"],
           [Cell.str "P1", Cell.str "10"]]⟩

/-- Supplier-details sheet for the end-to-end sample. -/
def sampleSd : ParsedExcel :=
  ⟨"SD", [[Cell.str "Material", Cell.str "Vendor", Cell.str "Vendor Lead-Time", Cell.str "Transport Time"],
          [Cell.str "M1", Cell.str "V1", Cell.str "1", Cell.str "2"]]⟩

/-- The assembled `MrpInputs` of the end-to-end sample (no week plan). -/
def sampleInputs : MrpInputs := ⟨some sampleBom, some sampleMm, some sampleIdp, some sampleSd, none⟩

/-- The single output row the engine produces for the sample inputs. -/
def sampleRow : MrpRow :=
  { material := "M1", uom := "EA", supplierCode := "V1", mpq := 0, moq := 0, reorder := 0,
    instock := 0, pendingPo := 0, excessQty := 0, leadTime := 3,
    weeklyDemand := [("01.2024", 20)], weeklyMrpQty := [("01.2024", 20)],
    weeklyPoDate := [("01.2024", "05-Jan-24")], totalDemand := 20 }

theorem c10_window_and_total_witness :
    calculateMrpDataInternal sampleInputs "2024" 1 20
        = Except.ok ⟨[sampleRow], ["01.2024"], ["01.2024"]⟩
    ∧ ((∀ k, (k ∈ sampleRow.weeklyDemand.map Prod.fst ∨ k ∈ sampleRow.weeklyMrpQty.map Prod.fst
              ∨ k ∈ sampleRow.weeklyPoDate.map Prod.fst) →
        (splitOnChar '.' k).get? 1 = some "2024"
        ∧ ∃ n : ℚ, ((splitOnChar '.' k).get? 0).bind jsNumber = some n ∧ 1 ≤ n ∧ n ≤ 20)
      ∧ sampleRow.totalDemand = (sampleRow.weeklyDemand.map Prod.snd).sum) :=
  ⟨by decide,
   c10_window_and_total sampleInputs "2024" 1 20 ⟨[sampleRow], ["01.2024"], ["01.2024"]⟩
     (by decide) sampleRow (by decide)⟩
